import Mathlib

/-!
Verification development for the fail2ban monitoring bot repository.

This file gives a shallow embedding, in Lean 4, of the ingestion-and-
aggregation core of the repository:

* `app/services/fail2ban.py` — timestamp parsing, log classification,
  store-preferred / log-fallback queries, log-to-store synchronisation;
* `db_manager.py` — the SQLite-backed ban store (`ban_exists`,
  `insert_ban`, `fetch_bans`), modelled as an explicit row list plus a
  connection flag (`connOk` is false when `__init__` failed to obtain a
  connection, in which case every method catches its exception and
  returns the neutral value, exactly as the Python does);
* `app/services/geoip.py` — the module-level LRU cache of geolocation
  results (an `OrderedDict`, modelled as an association list whose head
  is the least recently used entry);
* `app/utils/plotting.py` — the bucket computation of
  `generate_single_period_plot`;
* `app/handlers/stats.py` — the comparison arithmetic of
  `handle_comparison_stats`.

Python `datetime` values are embedded as the structure `DT` of six `Nat`
fields; `datetime` comparison is field-lexicographic (`dtLe`, `dtLt`),
and `timedelta` arithmetic goes through the proleptic-Gregorian
epoch-seconds conversion (`toSecs` / `ofSecs`, the standard civil
calendar algorithms).  SQLite TEXT comparison (used by the `ts >= ?` filter
of `fetch_bans`) is embedded as byte-wise string comparison `strLe` on
the stored `strftime` images.  External effects (the GeoIP database
lookup, the clock) are passed in as explicit parameters.
-/

/-- Embedding of a Python naive `datetime` at second resolution. -/
structure DT where
  year : Nat
  month : Nat
  day : Nat
  hour : Nat
  minute : Nat
  second : Nat
deriving DecidableEq, Repr

/-- Gregorian leap-year predicate, as used by the Python `calendar` and `datetime` modules. -/
def isLeapYear (y : Nat) : Bool :=
  (y % 4 == 0 && y % 100 != 0) || y % 400 == 0

/-- Number of days in a month (month given 1-12). -/
def daysInMonth (y m : Nat) : Nat :=
  if m == 2 then (if isLeapYear y then 29 else 28)
  else if m == 4 || m == 6 || m == 9 || m == 11 then 30
  else 31

/-- Python `datetime` non-strict comparison: lexicographic on the fields. -/
def dtLe (a b : DT) : Bool :=
  if a.year ≠ b.year then decide (a.year < b.year)
  else if a.month ≠ b.month then decide (a.month < b.month)
  else if a.day ≠ b.day then decide (a.day < b.day)
  else if a.hour ≠ b.hour then decide (a.hour < b.hour)
  else if a.minute ≠ b.minute then decide (a.minute < b.minute)
  else decide (a.second ≤ b.second)

/-- Python `datetime` strict comparison: lexicographic on the fields. -/
def dtLt (a b : DT) : Bool :=
  if a.year ≠ b.year then decide (a.year < b.year)
  else if a.month ≠ b.month then decide (a.month < b.month)
  else if a.day ≠ b.day then decide (a.day < b.day)
  else if a.hour ≠ b.hour then decide (a.hour < b.hour)
  else if a.minute ≠ b.minute then decide (a.minute < b.minute)
  else decide (a.second < b.second)

/-- Days since 1970-01-01 of a civil date (standard civil-calendar algorithm;
all intermediate divisions act on non-negative operands for years ≥ 1). -/
def daysFromCivil (y m d : Int) : Int :=
  let y2 := if m ≤ 2 then y - 1 else y
  let era : Int := (if 0 ≤ y2 then y2 else y2 - 399) / 400
  let yoe := y2 - era * 400
  let mp := (m + 9) % 12
  let doy := (153 * mp + 2) / 5 + d - 1
  let doe := yoe * 365 + yoe / 4 - yoe / 100 + doy
  era * 146097 + doe - 719468

/-- Inverse of `daysFromCivil` (standard civil-calendar algorithm). -/
def civilFromDays (z0 : Int) : Int × Int × Int :=
  let z := z0 + 719468
  let era : Int := (if 0 ≤ z then z else z - 146096) / 146097
  let doe := z - era * 146097
  let yoe := (doe - doe / 1460 + doe / 36524 - doe / 146096) / 365
  let y := yoe + era * 400
  let doy := doe - (365 * yoe + yoe / 4 - yoe / 100)
  let mp := (5 * doy + 2) / 153
  let d := doy - (153 * mp + 2) / 5 + 1
  let m := mp + (if mp < 10 then 3 else -9)
  (if m ≤ 2 then y + 1 else y, m, d)

/-- Seconds since the epoch of a `DT` (Python `datetime` arithmetic base). -/
def toSecs (t : DT) : Int :=
  daysFromCivil (t.year : Int) (t.month : Int) (t.day : Int) * 86400
    + (t.hour : Int) * 3600 + (t.minute : Int) * 60 + (t.second : Int)

/-- Rebuild a `DT` from epoch seconds. -/
def ofSecs (s : Int) : DT :=
  let days := s / 86400
  let sod := s % 86400
  let c := civilFromDays days
  { year := c.1.toNat, month := c.2.1.toNat, day := c.2.2.toNat,
    hour := (sod / 3600).toNat, minute := (sod % 3600 / 60).toNat,
    second := (sod % 60).toNat }

/-- Embedding of Python `t + timedelta(seconds=s)`. -/
def addSecs (t : DT) (s : Int) : DT := ofSecs (toSecs t + s)

/-- Embedding of Python `t - timedelta(hours=h)`. -/
def subHours (t : DT) (h : Nat) : DT := ofSecs (toSecs t - 3600 * (h : Int))

/-- Fixed-width two-digit decimal rendering (Python `%phr`-style zero padding;
`datetime` fields other than the year are always below 100). -/
def pad2 (n : Nat) : List Char :=
  [Nat.digitChar (n / 10 % 10), Nat.digitChar (n % 10)]

/-- Fixed-width four-digit decimal rendering (`datetime` years are 1-9999). -/
def pad4 (n : Nat) : List Char :=
  [Nat.digitChar (n / 1000 % 10), Nat.digitChar (n / 100 % 10),
   Nat.digitChar (n / 10 % 10), Nat.digitChar (n % 10)]

/-- Embedding of `t.strftime(DATE_FORMAT)` with the repository format
string (year, month, day, hour, minute, second, zero padded). -/
def fmtDT (t : DT) : String :=
  String.mk (pad4 t.year ++ ('-' :: (pad2 t.month ++ ('-' :: (pad2 t.day
    ++ (' ' :: (pad2 t.hour ++ (':' :: (pad2 t.minute ++ (':' :: pad2 t.second))))))))))

/-- Embedding of the plot label format for hourly buckets. -/
def fmtHH00 (t : DT) : String := String.mk (pad2 t.hour ++ [':', '0', '0'])

/-- Embedding of the plot label format for daily and coarser buckets. -/
def fmtMMDD (t : DT) : String := String.mk (pad2 t.month ++ '-' :: pad2 t.day)

/-- Byte-wise (code-point-wise) list comparison, mirroring the SQLite memcmp
comparison of TEXT values. -/
def charListLe : List Char → List Char → Bool
  | [], _ => true
  | _ :: _, [] => false
  | a :: as, b :: bs =>
    if a.toNat < b.toNat then true
    else if b.toNat < a.toNat then false
    else charListLe as bs

/-- SQLite TEXT non-strict comparison of two strings. -/
def strLe (s t : String) : Bool := charListLe s.data t.data

/-- Embedding of the Python substring test `sub in hay`. -/
def containsStr (hay sub : String) : Bool := decide (sub.data <:+: hay.data)

/-- Numeric value of an ASCII digit character. -/
def digitVal (c : Char) : Nat := c.toNat - 48

/-- Match, at the head of the character list, the timestamp shape
four digits, dash, two digits, dash, two digits, separator, two digits,
colon, two digits, colon, two digits — the fixed shape shared by the two
regular expressions of `parse_log_timestamp` (their optional sub-second
and Z suffixes do not contribute to the captured group). -/
def matchStamp (sep : Char) : List Char → Option (Nat × Nat × Nat × Nat × Nat × Nat)
  | y1 :: y2 :: y3 :: y4 :: a :: o1 :: o2 :: b :: d1 :: d2 :: c :: h1 :: h2 :: e ::
      n1 :: n2 :: f :: s1 :: s2 :: _ =>
    if y1.isDigit && y2.isDigit && y3.isDigit && y4.isDigit && a == '-' &&
       o1.isDigit && o2.isDigit && b == '-' && d1.isDigit && d2.isDigit && c == sep &&
       h1.isDigit && h2.isDigit && e == ':' && n1.isDigit && n2.isDigit && f == ':' &&
       s1.isDigit && s2.isDigit
    then some (digitVal y1 * 1000 + digitVal y2 * 100 + digitVal y3 * 10 + digitVal y4,
               digitVal o1 * 10 + digitVal o2, digitVal d1 * 10 + digitVal d2,
               digitVal h1 * 10 + digitVal h2, digitVal n1 * 10 + digitVal n2,
               digitVal s1 * 10 + digitVal s2)
    else none
  | _ => none

/-- Leftmost occurrence of the timestamp shape in a character list,
mirroring `re.search` on the fixed-shape pattern. -/
def findStamp (sep : Char) : List Char → Option (Nat × Nat × Nat × Nat × Nat × Nat)
  | [] => none
  | x :: xs =>
    match matchStamp sep (x :: xs) with
    | some r => some r
    | none => findStamp sep xs

/-- Range validation performed by `datetime.strptime` and the `datetime`
constructor: year 1-9999, month 1-12, day within the month, hour below 24,
minute and second below 60. -/
def dtValid (y mo d h mi s : Nat) : Bool :=
  decide (1 ≤ y) && decide (y ≤ 9999) && decide (1 ≤ mo) && decide (mo ≤ 12) &&
  decide (1 ≤ d) && decide (d ≤ daysInMonth y mo) && decide (h ≤ 23) &&
  decide (mi ≤ 59) && decide (s ≤ 59)

/-- Embedding of `datetime.strptime` applied to the captured timestamp
group: the digits are fixed by the regular expression, so only the range
validation can fail (raising `ValueError` in Python, `none` here). -/
def strptimeOpt (y mo d h mi s : Nat) : Option DT :=
  if dtValid y mo d h mi s then some ⟨y, mo, d, h, mi, s⟩ else none

/-- Search one of the two timestamp patterns of `parse_log_timestamp` in a
line and validate the first match. -/
def tryStamp (sep : Char) (line : String) : Option DT :=
  match findStamp sep line.data with
  | some (y, mo, d, h, mi, s) => strptimeOpt y mo d h mi s
  | none => none

/-- Embedding of `parse_log_timestamp` (`app/services/fail2ban.py`): first
the "YYYY-MM-DD HH:MM:SS" pattern (optional ",digits" discarded); if that
pattern is absent or its numbers fail validation, the ISO-8601
"YYYY-MM-DDTHH:MM:SS" pattern (optional trailing "Z" discarded);
otherwise `none`.  A total function: the Python never raises. -/
def parse_log_timestamp (line : String) : Option DT :=
  match findStamp ' ' line.data with
  | some (y, mo, d, h, mi, s) =>
    match strptimeOpt y mo d h mi s with
    | some t => some t
    | none => tryStamp 'T' line
  | none => tryStamp 'T' line

/-- Character class of the coarse IPv6 alternative `[0-9a-fA-F:]`. -/
def isHexColon (c : Char) : Bool :=
  c.isDigit || ('a' ≤ c && c ≤ 'f') || ('A' ≤ c && c ≤ 'F') || c == ':'

/-- Longest digit prefix of a character list, with the remainder. -/
def takeDigits (cs : List Char) : List Char × List Char :=
  (cs.takeWhile Char.isDigit, cs.dropWhile Char.isDigit)

/-- Match one non-final IPv4 octet: one to three digits that must be
followed by a literal dot.  The digit run is maximal, so a run longer
than three digits cannot be saved by backtracking (a shorter take would
leave a digit where the dot is required) and the alternative fails. -/
def matchOctetDot (cs : List Char) : Option (List Char × List Char) :=
  let p := takeDigits cs
  if 1 ≤ p.1.length && p.1.length ≤ 3 then
    match p.2 with
    | '.' :: rest => some (p.1 ++ ['.'], rest)
    | _ => none
  else none

/-- Match the final IPv4 octet: one to three digits with nothing required
after them, so the greedy match simply takes up to three digits. -/
def matchOctetEnd (cs : List Char) : Option (List Char × List Char) :=
  let p := takeDigits cs
  if 1 ≤ p.1.length then some (p.1.take 3, (p.1.drop 3) ++ p.2) else none

/-- Match, at the current position, the IP group of the repository
regular expressions: the IPv4 alternative (four one-to-three-digit groups
separated by dots) tried first, then the coarse hex/colon token
`[0-9a-fA-F:]+`.  Returns the captured group text. -/
def matchIpGroup (cs : List Char) : Option (List Char) :=
  match matchOctetDot cs with
  | some (g1, r1) =>
    (match matchOctetDot r1 with
     | some (g2, r2) =>
       (match matchOctetDot r2 with
        | some (g3, r3) =>
          (match matchOctetEnd r3 with
           | some (g4, _) => some (g1 ++ g2 ++ g3 ++ g4)
           | none => hexAlt)
        | none => hexAlt)
     | none => hexAlt)
  | none => hexAlt
where
  hexAlt : Option (List Char) :=
    let p := cs.takeWhile isHexColon
    if 1 ≤ p.length then some p else none

/-- Leftmost match of the pattern "Ban " followed by the IP group —
the fallback extraction regex of `extract_banned_ips`. -/
def findBanIp : List Char → Option String
  | [] => none
  | x :: xs =>
    match x :: xs with
    | 'B' :: 'a' :: 'n' :: ' ' :: rest =>
      (match matchIpGroup rest with
       | some ip => some (String.mk ip)
       | none => findBanIp xs)
    | _ => findBanIp xs

/-- Leftmost match of the pattern "(Ban|Unban) " followed by the IP group
— the extraction regex of `sync_log_to_db`; the `Ban` alternative is
tried before `Unban` at every position.  Returns the IP group. -/
def findActionIp : List Char → Option String
  | [] => none
  | x :: xs =>
    match x :: xs with
    | 'B' :: 'a' :: 'n' :: ' ' :: rest =>
      (match matchIpGroup rest with
       | some ip => some (String.mk ip)
       | none => findActionIp xs)
    | 'U' :: 'n' :: 'b' :: 'a' :: 'n' :: ' ' :: rest =>
      (match matchIpGroup rest with
       | some ip => some (String.mk ip)
       | none => findActionIp xs)
    | _ => findActionIp xs

/-- Leftmost match of the jail pattern: a bracket, one or more non-bracket
characters, a closing bracket; returns the bracket contents. -/
def findJail : List Char → Option String
  | [] => none
  | x :: xs =>
    if x == '[' then
      let body := xs.takeWhile (fun c => c ≠ ']')
      match xs.dropWhile (fun c => c ≠ ']') with
      | ']' :: _ => if 1 ≤ body.length then some (String.mk body) else findJail xs
      | _ => findJail xs
    else findJail xs

/-- Embedding of Python `str.strip` (used for the stored `raw_line`):
leading and trailing whitespace removed. -/
def stripStr (s : String) : String :=
  String.mk (((s.data.dropWhile Char.isWhitespace).reverse.dropWhile
    Char.isWhitespace).reverse)

/-- One stored row of the `bans` table, in the column order selected by
`fetch_bans`: ts, ip, jail, action, reason, country, city, raw_line. -/
structure BanRow where
  ts : String
  ip : String
  jail : String
  action : String
  reason : Option String
  country : String
  city : String
  raw_line : String
deriving DecidableEq, Repr

/-- State of a constructed `DBManager`: `connOk` is false when `__init__`
failed to obtain the SQLite connection (the exception is caught and
logged, the object still exists), `rows` the contents of the `bans`
table in insertion order. -/
structure DBState where
  connOk : Bool
  rows : List BanRow
deriving DecidableEq, Repr

/-- Embedding of `DBManager.ban_exists`: normalises the timestamp to the
DB string and probes for a row with that timestamp and IP; any exception
(in particular the missing connection of a degraded manager) yields
`False`. -/
def ban_exists (db : DBState) (ts : DT) (ip : String) : Bool :=
  if db.connOk then db.rows.any (fun r => r.ts == fmtDT ts && r.ip == ip)
  else false

/-- Embedding of `DBManager.insert_ban`: normalises the timestamp (the
current time when absent) and appends the row; on a degraded manager the
exception is caught and nothing is stored. -/
def insert_ban (db : DBState) (ip jail action : String) (country city raw_line : String)
    (ts : Option DT) (now : DT) : DBState :=
  let tsStr := fmtDT (ts.getD now)
  if db.connOk then
    { db with rows := db.rows ++
        [{ ts := tsStr, ip := ip, jail := jail, action := action, reason := none,
           country := country, city := city, raw_line := raw_line }] }
  else db

/-- Embedding of `DBManager.fetch_bans`: all rows, or the rows whose
TEXT timestamp is at least the formatted cutoff (`ts >= ?`); a degraded
manager returns the empty list. -/
def fetch_bans (db : DBState) (since : Option DT) : List BanRow :=
  if db.connOk then
    match since with
    | some s => db.rows.filter (fun r => strLe (fmtDT s) r.ts)
    | none => db.rows
  else []

/-- Python truthiness-plus-substring test `r[3] and "ban" in r[3].lower()`
used by all store-path queries: a non-empty action containing "ban"
case-insensitively (lower-casing mapped over the characters, which agrees
with the Python `str.lower` on the ASCII action strings).  Note that it
accepts both "Ban" and "Unban". -/
def actionHasBan (a : String) : Bool :=
  a ≠ "" && containsStr (String.mk (a.data.map Char.toLower)) "ban"

/-- Result dictionary of `get_geo_info`. -/
structure GeoRes where
  country : String
  city : String
  ip : String
deriving DecidableEq, Repr

/-- The geolocation cache: an `OrderedDict` keyed by IP, embedded as an
association list whose head is the least-recently-used entry and whose
last element is the most-recently-used one. -/
abbrev GeoCache := List (String × GeoRes)

/-- The module-level cache capacity of `app/services/geoip.py`. -/
def MAX_CACHE_SIZE : Nat := 1000

/-- Embedding of the offline GeoIP lookup of `get_geo_info` (the
`geoip2.database.Reader` query with its exception handling): the lookup
is an external binary file, modelled as an oracle from IP to the
country/city pair, already defaulted to "Unknown" on failure. -/
def lookupGeo (resolver : String → String × String) (ip : String) : GeoRes :=
  { country := (resolver ip).1, city := (resolver ip).2, ip := ip }

/-- Embedding of `get_geo_info`, generalised over the capacity: a cache
hit moves the entry to the most-recently-used end and returns it; a miss
resolves, appends, and when the cache has grown past the capacity evicts
the least-recently-used (first) entry. -/
def getGeoInfoCap (cap : Nat) (resolver : String → String × String)
    (cache : GeoCache) (ip : String) : GeoRes × GeoCache :=
  match cache.find? (fun e => e.1 == ip) with
  | some e => (e.2, (cache.filter (fun x => x.1 ≠ ip)) ++ [(ip, e.2)])
  | none =>
    let res := lookupGeo resolver ip
    let c := cache ++ [(ip, res)]
    (res, if cap < c.length then c.drop 1 else c)

/-- Embedding of `get_geo_info` at the fixed repository capacity. -/
def get_geo_info (resolver : String → String × String) (cache : GeoCache)
    (ip : String) : GeoRes × GeoCache :=
  getGeoInfoCap MAX_CACHE_SIZE resolver cache ip

/-- Resolve a whole list of addresses in sequence through the cache. -/
def foldGeo (cap : Nat) (resolver : String → String × String)
    (cache : GeoCache) (ips : List String) : GeoCache :=
  ips.foldl (fun c ip => (getGeoInfoCap cap resolver c ip).2) cache

/-- Classification guard shared by the fallback paths of
`count_bans_in_period`, `extract_banned_ips` and the plot collection:
the line is processed unless it contains neither "Ban " nor "ban ".
"Unban " contains "ban ", so unban lines pass this guard. -/
def lineHasBanWord (line : String) : Bool :=
  containsStr line "Ban " || containsStr line "ban "

/-- Store branch of `count_bans_in_period`, factored on the computed
cutoff: fetch the rows since the cutoff and count the ban-matching
actions. -/
def storeBanCount (db : DBState) (since : DT) : Nat :=
  (fetch_bans db (some since)).countP (fun r => actionHasBan r.action)

/-- Log-fallback branch of `count_bans_in_period`, processing the lines
already reversed: skip unclassified or unparseable lines, count a line
whose timestamp is at least the cutoff, and stop at the first parseable
older timestamp (the chronological-order optimisation). -/
def fallbackCountAux (since : DT) : List String → Nat
  | [] => 0
  | line :: rest =>
    if lineHasBanWord line then
      match parse_log_timestamp line with
      | none => fallbackCountAux since rest
      | some ts => if dtLe since ts then fallbackCountAux since rest + 1 else 0
    else fallbackCountAux since rest

/-- Log-fallback branch of `count_bans_in_period`: iterate the file lines in reverse. -/
def fallbackCount (log : List String) (since : DT) : Nat :=
  fallbackCountAux since log.reverse

/-- Embedding of `count_bans_in_period` (`app/services/fail2ban.py`):
compute the cutoff `now - timedelta(hours=hours)`; with a manager object
use the store branch, otherwise the log-fallback branch.  The log file
contents are passed as the list of its lines. -/
def count_bans_in_period (dbm : Option DBState) (log : List String) (now : DT)
    (hours : Nat) : Nat :=
  let since := subHours now hours
  match dbm with
  | some db => storeBanCount db since
  | none => fallbackCount log since

/-- Embedding of `list(dict.fromkeys(ips))`: fold the list into an
insertion-ordered key set, keeping the first occurrence of each value. -/
def dedupKeys (l : List String) : List String :=
  l.foldl (fun acc x => if x ∈ acc then acc else acc ++ [x]) []

/-- Store branch of `extract_banned_ips`: fetch since the cutoff (or
all), keep the rows with a ban-matching action, project the IPs,
de-duplicate. -/
def storeExtract (db : DBState) (since : Option DT) : List String :=
  dedupKeys (((fetch_bans db since).filter (fun r => actionHasBan r.action)).map
    (fun r => r.ip))

/-- One line of the fallback branch of `extract_banned_ips`: classify,
extract the IP by the "Ban " regex, and when a cutoff is given keep only
lines whose parseable timestamp is not older than it. -/
def fallbackIpLine (since : Option DT) (line : String) : Option String :=
  if lineHasBanWord line then
    match findBanIp line.data with
    | none => none
    | some ip =>
      match since with
      | some s =>
        (match parse_log_timestamp line with
         | none => none
         | some ts => if dtLt ts s then none else some ip)
      | none => some ip
  else none

/-- Fallback branch of `extract_banned_ips`: forward scan, then
de-duplicate preserving first-seen order. -/
def fallbackExtract (log : List String) (since : Option DT) : List String :=
  dedupKeys (log.filterMap (fallbackIpLine since))

/-- Embedding of `extract_banned_ips` (`app/services/fail2ban.py`): the
cutoff is `now - timedelta(hours=since_hours)` when `since_hours` is
given and non-zero (Python truthiness), else absent; store branch when a
manager object is present, else log fallback. -/
def extract_banned_ips (dbm : Option DBState) (log : List String) (now : DT)
    (sinceHours : Option Nat) : List String :=
  let sinceDt : Option DT :=
    match sinceHours with
    | some h => if h ≠ 0 then some (subHours now h) else none
    | none => none
  match dbm with
  | some db => storeExtract db sinceDt
  | none => fallbackExtract log sinceDt

/-- First-seen de-duplication as the specification words it: each value
appears once, at the position of its first occurrence.  This is the
specification-side counterpart of `dedupKeys`, used to state the
refinement. -/
def specDedupFirstSeen : List String → List String
  | [] => []
  | x :: xs => x :: specDedupFirstSeen (xs.filter (fun y => y ≠ x))
termination_by l => l.length
decreasing_by
  simp only [List.length_cons]
  exact Nat.lt_succ_of_le (List.length_filter_le _ _)

/-- Classification step of `sync_log_to_db`: "Ban "/" ban " wins over
"Unban "/" unban "; anything else is skipped. -/
def classifyAction (line : String) : Option String :=
  if containsStr line "Ban " || containsStr line " ban " then some "Ban"
  else if containsStr line "Unban " || containsStr line " unban " then some "Unban"
  else none

/-- Processing of one log line by `sync_log_to_db`: classify, extract the
IP (group 2 of the action regex), parse the timestamp substituting the
current time when absent, skip when the (timestamp, ip) pair already
exists, otherwise extract the jail, resolve geolocation through the
cache, and insert. -/
def syncLine (resolver : String → String × String) (st : DBState × GeoCache)
    (line : String) (now : DT) : DBState × GeoCache :=
  match classifyAction line with
  | none => st
  | some act =>
    match findActionIp line.data with
    | none => st
    | some ip =>
      let ts := (parse_log_timestamp line).getD now
      if ban_exists st.1 ts ip then st
      else
        let jail := (findJail line.data).getD "Unknown"
        let g := get_geo_info resolver st.2 ip
        (insert_ban st.1 ip jail act g.1.country g.1.city (stripStr line) (some ts) now,
         g.2)

/-- One full scan of the log against a constructed manager: every line
processed in order, threading the store and the geolocation cache. -/
def syncRun (db : DBState) (log : List String) (now : DT)
    (resolver : String → String × String) (cache : GeoCache) : DBState × GeoCache :=
  log.foldl (fun st line => syncLine resolver st line now) (db, cache)

/-- Embedding of `sync_log_to_db` (`app/services/fail2ban.py`): without a
manager object the function returns immediately; otherwise one full
scan runs.  The log file contents are passed as the list of its lines. -/
def sync_log_to_db (dbm : Option DBState) (log : List String) (now : DT)
    (resolver : String → String × String) (cache : GeoCache) :
    Option DBState × GeoCache :=
  match dbm with
  | none => (none, cache)
  | some db =>
    let st := syncRun db log now resolver cache
    (some st.1, st.2)

/-- A sequence of scanner runs against one manager (as driven by
`periodic_log_sync`), each run seeing the log contents and the clock of
its cycle. -/
def multiSync (resolver : String → String × String)
    (runs : List (List String × DT)) (db : DBState) (cache : GeoCache) :
    DBState × GeoCache :=
  runs.foldl (fun st run => syncRun st.1 run.1 run.2 resolver st.2) (db, cache)

/-- Bucket policy of `generate_single_period_plot`: bucket count, bucket
width, and label format (true = hourly "HH:00", false = "MM-DD").
For the over-a-week branch the width is
`timedelta(days=hours * 24 / buckets)` with `buckets = 12`; the Python
float division is exact here, so the width in seconds is
`hours * 24 / 12 * 86400`. -/
structure BucketCfg where
  buckets : Nat
  intervalSecs : Int
  hourLabels : Bool
deriving DecidableEq, Repr

/-- Bucket policy selection of `generate_single_period_plot`. -/
def bucketCfg (hours : Nat) : BucketCfg :=
  if hours ≤ 24 then ⟨hours, 3600, true⟩
  else if hours ≤ 7 * 24 then ⟨7, 86400, false⟩
  else ⟨12, (hours : Int) * 24 / 12 * 86400, false⟩

/-- Label of a bucket start under a bucket policy. -/
def bucketLabel (cfg : BucketCfg) (t : DT) : String :=
  if cfg.hourLabels then fmtHH00 t else fmtMMDD t

/-- Aggregation loop of `generate_single_period_plot`: for each bucket,
label its start and count the events in the half-open interval from the
start to the start plus the width, then advance the start. -/
def bucketLoop (cfg : BucketCfg) (events : List DT) : Nat → DT → List (String × Nat)
  | 0, _ => []
  | n + 1, start =>
    let next := addSecs start cfg.intervalSecs
    (bucketLabel cfg start,
      events.countP (fun ts => dtLe start ts && dtLt ts next))
      :: bucketLoop cfg events n next

/-- Event collection of `generate_single_period_plot`: with a manager
object, fetch since the period start and keep ban-matching rows, reading
the stored timestamp strings back into datetimes (the stored format is
the strftime image, which round-trips); otherwise scan the log and keep
classified lines with a parseable timestamp at or after the start. -/
def collectBans (dbm : Option DBState) (log : List String) (start : DT) : List DT :=
  match dbm with
  | some db =>
    ((fetch_bans db (some start)).filter (fun r => actionHasBan r.action)).filterMap
      (fun r => parse_log_timestamp r.ts)
  | none =>
    log.filterMap (fun line =>
      if lineHasBanWord line then
        match parse_log_timestamp line with
        | some ts => if dtLe start ts then some ts else none
        | none => none
      else none)

/-- Embedding of the data series produced by `generate_single_period_plot`
(`app/utils/plotting.py`): the ordered list of (label, count) pairs fed
to the bar chart, oldest bucket first. -/
def generate_single_period_plot (dbm : Option DBState) (log : List String)
    (now : DT) (hours : Nat) : List (String × Nat) :=
  let start := subHours now hours
  let cfg := bucketCfg hours
  bucketLoop cfg (collectBans dbm log start) cfg.buckets start

/-- Embedding of the comparison arithmetic of `handle_comparison_stats`
(`app/handlers/stats.py`): current count, previous count derived by
subtraction, and the percent change (Python float arithmetic modelled
exactly over the rationals).  Returns (current, previous, percent). -/
def compareStats (dbm : Option DBState) (log : List String) (now : DT)
    (hours : Nat) : Nat × Int × ℚ :=
  let current := count_bans_in_period dbm log now hours
  let previous : Int := (count_bans_in_period dbm log now (2 * hours) : Int) - (current : Int)
  let change : Int := |(current : Int) - previous|
  let percent : ℚ :=
    if 0 < previous then (change : ℚ) / (previous : ℚ) * 100
    else if 0 < current then 100 else 0
  (current, previous, percent)

/-- Identity keys of the stored rows: the (timestamp, address) pairs, in
insertion order. -/
def keysOf (db : DBState) : List (String × String) :=
  db.rows.map (fun r => (r.ts, r.ip))

/-- A log line that the scanner will try to persist: it classifies and it
carries an extractable IP. -/
def lineKeyed (line : String) : Bool :=
  (classifyAction line).isSome && (findActionIp line.data).isSome

/-- Timestamps of the classified parseable lines of a log, in file
order — the sequence on which the early stop of the fallback counter relies. -/
def tsSeq (log : List String) : List DT :=
  log.filterMap (fun l => if lineHasBanWord l then parse_log_timestamp l else none)

/-- A line the fallback counter ultimately counts: classified, parseable,
and with its timestamp at or after the cutoff. -/
def inWindowLine (since : DT) (line : String) : Bool :=
  lineHasBanWord line &&
    (match parse_log_timestamp line with
     | some ts => dtLe since ts
     | none => false)

/-- A `DT` whose fields lie in the ranges `datetime` guarantees. -/
def validDT (t : DT) : Bool :=
  dtValid t.year t.month t.day t.hour t.minute t.second

/-- Trivial geolocation oracle used by concrete test fixtures: every
lookup misses and yields the "Unknown"/"Unknown" default. -/
def resU : String → String × String := fun _ => ("Unknown", "Unknown")

/-! ## Order lemmas for the datetime and string comparisons -/

theorem dtLe_iff (a b : DT) : dtLe a b = true ↔
    (a.year < b.year ∨ (a.year = b.year ∧ (a.month < b.month ∨ (a.month = b.month ∧
      (a.day < b.day ∨ (a.day = b.day ∧ (a.hour < b.hour ∨ (a.hour = b.hour ∧
      (a.minute < b.minute ∨ (a.minute = b.minute ∧ a.second ≤ b.second)))))))))) := by
  simp only [dtLe]
  split_ifs <;> simp only [decide_eq_true_eq] <;> omega

theorem dtLt_iff (a b : DT) : dtLt a b = true ↔
    (a.year < b.year ∨ (a.year = b.year ∧ (a.month < b.month ∨ (a.month = b.month ∧
      (a.day < b.day ∨ (a.day = b.day ∧ (a.hour < b.hour ∨ (a.hour = b.hour ∧
      (a.minute < b.minute ∨ (a.minute = b.minute ∧ a.second < b.second)))))))))) := by
  simp only [dtLt]
  split_ifs <;> simp only [decide_eq_true_eq] <;> omega

theorem dtLe_trans {a b c : DT} (h1 : dtLe a b = true) (h2 : dtLe b c = true) :
    dtLe a c = true := by
  rw [dtLe_iff] at *
  omega

theorem dtLt_false_mono {s1 s2 t : DT} (h : dtLe s1 s2 = true)
    (h2 : dtLt t s2 = false) : dtLt t s1 = false := by
  rw [dtLe_iff] at h
  rw [← Bool.not_eq_true] at h2 ⊢
  rw [dtLt_iff] at h2 ⊢
  omega

theorem charListLe_trans : ∀ as bs cs : List Char,
    charListLe as bs = true → charListLe bs cs = true → charListLe as cs = true := by
  intro as
  induction as with
  | nil => intro bs cs _ _; rfl
  | cons a as ih =>
    intro bs cs h1 h2
    cases bs with
    | nil => simp [charListLe] at h1
    | cons b bs =>
      cases cs with
      | nil => simp [charListLe] at h2
      | cons c cs =>
        simp only [charListLe] at h1 h2 ⊢
        by_cases hab : a.toNat < b.toNat <;> by_cases hba : b.toNat < a.toNat <;>
          by_cases hbc : b.toNat < c.toNat <;> by_cases hcb : c.toNat < b.toNat <;>
          by_cases hac : a.toNat < c.toNat <;> by_cases hca : c.toNat < a.toNat <;>
          simp_all <;> first | omega | exact ih bs cs h1 h2 | exact Or.inr (ih bs cs h1 h2)

theorem strLe_trans {s t u : String} (h1 : strLe s t = true) (h2 : strLe t u = true) :
    strLe s u = true :=
  charListLe_trans _ _ _ h1 h2

theorem charListLe_cons_same {c : Char} {r1 r2 : List Char}
    (h : charListLe r1 r2 = true) : charListLe (c :: r1) (c :: r2) = true := by
  simp [charListLe, h]

theorem charListLe_append_left : ∀ (xs r1 r2 : List Char),
    charListLe r1 r2 = true → charListLe (xs ++ r1) (xs ++ r2) = true := by
  intro xs
  induction xs with
  | nil => intro r1 r2 h; simpa using h
  | cons x xs ih =>
    intro r1 r2 h
    simpa using charListLe_cons_same (ih r1 r2 h)

theorem charListLe_append_of_lt : ∀ (xs ys r1 r2 : List Char),
    xs.length = ys.length → charListLe xs ys = true → xs ≠ ys →
    charListLe (xs ++ r1) (ys ++ r2) = true := by
  intro xs
  induction xs with
  | nil =>
    intro ys r1 r2 hlen _ hne
    cases ys with
    | nil => exact absurd rfl hne
    | cons b bs => simp at hlen
  | cons x xs ih =>
    intro ys r1 r2 hlen hle hne
    cases ys with
    | nil => simp at hlen
    | cons b bs =>
      by_cases hlt : x.toNat < b.toNat
      · simp only [List.cons_append, charListLe, if_pos hlt]
      · by_cases hgt : b.toNat < x.toNat
        · simp only [charListLe, if_neg hlt, if_pos hgt] at hle
          exact absurd hle (by simp)
        · have hT : x.toNat = b.toNat := by omega
          have hxb : x = b := Char.eq_of_val_eq (UInt32.ext hT)
          have hxs : xs ≠ bs := fun he => hne (by rw [hxb, he])
          simp only [charListLe, if_neg hlt, if_neg hgt] at hle
          simp only [List.cons_append, charListLe, if_neg hlt, if_neg hgt]
          exact ih bs r1 r2 (by simpa using hlen) hle hxs

theorem digitChar_toNat : ∀ d : Nat, d < 10 → (Nat.digitChar d).toNat = 48 + d := by
  intro d hd
  interval_cases d <;> rfl

theorem pad2_le {a b : Nat} (ha : a < 100) (hb : b < 100) (hab : a ≤ b) :
    charListLe (pad2 a) (pad2 b) = true := by
  have e1 := digitChar_toNat (a / 10 % 10) (by omega)
  have e2 := digitChar_toNat (a % 10) (by omega)
  have e3 := digitChar_toNat (b / 10 % 10) (by omega)
  have e4 := digitChar_toNat (b % 10) (by omega)
  simp only [pad2, charListLe, Char.toNat] at e1 e2 e3 e4 ⊢
  rw [e1, e2, e3, e4]
  split_ifs <;> first | rfl | omega

theorem pad2_inj {a b : Nat} (ha : a < 100) (hb : b < 100) (h : pad2 a = pad2 b) :
    a = b := by
  simp only [pad2, List.cons.injEq, and_true] at h
  have t1 : (Nat.digitChar (a / 10 % 10)).toNat = (Nat.digitChar (b / 10 % 10)).toNat := by
    rw [h.1]
  have t2 : (Nat.digitChar (a % 10)).toNat = (Nat.digitChar (b % 10)).toNat := by
    rw [h.2]
  rw [digitChar_toNat _ (by omega), digitChar_toNat _ (by omega)] at t1
  rw [digitChar_toNat _ (by omega), digitChar_toNat _ (by omega)] at t2
  omega

theorem pad4_le {a b : Nat} (ha : a < 10000) (hb : b < 10000) (hab : a ≤ b) :
    charListLe (pad4 a) (pad4 b) = true := by
  have e1 := digitChar_toNat (a / 1000 % 10) (by omega)
  have e2 := digitChar_toNat (a / 100 % 10) (by omega)
  have e3 := digitChar_toNat (a / 10 % 10) (by omega)
  have e4 := digitChar_toNat (a % 10) (by omega)
  have f1 := digitChar_toNat (b / 1000 % 10) (by omega)
  have f2 := digitChar_toNat (b / 100 % 10) (by omega)
  have f3 := digitChar_toNat (b / 10 % 10) (by omega)
  have f4 := digitChar_toNat (b % 10) (by omega)
  simp only [pad4, charListLe, Char.toNat] at e1 e2 e3 e4 f1 f2 f3 f4 ⊢
  rw [e1, e2, e3, e4, f1, f2, f3, f4]
  split_ifs <;> first | rfl | omega

theorem pad4_inj {a b : Nat} (ha : a < 10000) (hb : b < 10000) (h : pad4 a = pad4 b) :
    a = b := by
  simp only [pad4, List.cons.injEq, and_true] at h
  have t1 : (Nat.digitChar (a / 1000 % 10)).toNat = (Nat.digitChar (b / 1000 % 10)).toNat := by
    rw [h.1]
  have t2 : (Nat.digitChar (a / 100 % 10)).toNat = (Nat.digitChar (b / 100 % 10)).toNat := by
    rw [h.2.1]
  have t3 : (Nat.digitChar (a / 10 % 10)).toNat = (Nat.digitChar (b / 10 % 10)).toNat := by
    rw [h.2.2.1]
  have t4 : (Nat.digitChar (a % 10)).toNat = (Nat.digitChar (b % 10)).toNat := by
    rw [h.2.2.2]
  rw [digitChar_toNat _ (by omega), digitChar_toNat _ (by omega)] at t1
  rw [digitChar_toNat _ (by omega), digitChar_toNat _ (by omega)] at t2
  rw [digitChar_toNat _ (by omega), digitChar_toNat _ (by omega)] at t3
  rw [digitChar_toNat _ (by omega), digitChar_toNat _ (by omega)] at t4
  omega

theorem daysInMonth_le (y m : Nat) : daysInMonth y m ≤ 31 := by
  simp only [daysInMonth]
  split_ifs <;> omega

theorem validDT_bounds {t : DT} (h : validDT t = true) :
    t.year < 10000 ∧ t.month < 100 ∧ t.day < 100 ∧ t.hour < 100 ∧
      t.minute < 100 ∧ t.second < 100 := by
  simp only [validDT, dtValid, Bool.and_eq_true, decide_eq_true_eq] at h
  have := daysInMonth_le t.year t.month
  omega

theorem fmtDT_mono {s1 s2 : DT} (h1 : validDT s1 = true) (h2 : validDT s2 = true)
    (hle : dtLe s1 s2 = true) : strLe (fmtDT s1) (fmtDT s2) = true := by
  obtain ⟨hy1, hm1, hd1, hh1, hn1, hs1⟩ := validDT_bounds h1
  obtain ⟨hy2, hm2, hd2, hh2, hn2, hs2⟩ := validDT_bounds h2
  simp only [strLe, fmtDT]
  rcases (dtLe_iff s1 s2).mp hle with hy | ⟨hy, hm | ⟨hm, hd | ⟨hd, hh | ⟨hh, hn | ⟨hn, hs⟩⟩⟩⟩⟩
  · exact charListLe_append_of_lt _ _ _ _ (by simp [pad4])
      (pad4_le hy1 hy2 (Nat.le_of_lt hy))
      (fun he => absurd (pad4_inj hy1 hy2 he) (by omega))
  · rw [hy]
    refine charListLe_append_left _ _ _ (charListLe_cons_same ?_)
    exact charListLe_append_of_lt _ _ _ _ (by simp [pad2])
      (pad2_le hm1 hm2 (Nat.le_of_lt hm))
      (fun he => absurd (pad2_inj hm1 hm2 he) (by omega))
  · rw [hy, hm]
    refine charListLe_append_left _ _ _ (charListLe_cons_same ?_)
    refine charListLe_append_left _ _ _ (charListLe_cons_same ?_)
    exact charListLe_append_of_lt _ _ _ _ (by simp [pad2])
      (pad2_le hd1 hd2 (Nat.le_of_lt hd))
      (fun he => absurd (pad2_inj hd1 hd2 he) (by omega))
  · rw [hy, hm, hd]
    refine charListLe_append_left _ _ _ (charListLe_cons_same ?_)
    refine charListLe_append_left _ _ _ (charListLe_cons_same ?_)
    refine charListLe_append_left _ _ _ (charListLe_cons_same ?_)
    exact charListLe_append_of_lt _ _ _ _ (by simp [pad2])
      (pad2_le hh1 hh2 (Nat.le_of_lt hh))
      (fun he => absurd (pad2_inj hh1 hh2 he) (by omega))
  · rw [hy, hm, hd, hh]
    refine charListLe_append_left _ _ _ (charListLe_cons_same ?_)
    refine charListLe_append_left _ _ _ (charListLe_cons_same ?_)
    refine charListLe_append_left _ _ _ (charListLe_cons_same ?_)
    refine charListLe_append_left _ _ _ (charListLe_cons_same ?_)
    exact charListLe_append_of_lt _ _ _ _ (by simp [pad2])
      (pad2_le hn1 hn2 (Nat.le_of_lt hn))
      (fun he => absurd (pad2_inj hn1 hn2 he) (by omega))
  · rw [hy, hm, hd, hh, hn]
    refine charListLe_append_left _ _ _ (charListLe_cons_same ?_)
    refine charListLe_append_left _ _ _ (charListLe_cons_same ?_)
    refine charListLe_append_left _ _ _ (charListLe_cons_same ?_)
    refine charListLe_append_left _ _ _ (charListLe_cons_same ?_)
    refine charListLe_append_left _ _ _ (charListLe_cons_same ?_)
    exact pad2_le hs1 hs2 hs

/-! ## De-duplication: dict.fromkeys equals first-seen de-duplication -/

theorem specDedupFirstSeen_cons (x : String) (xs : List String) :
    specDedupFirstSeen (x :: xs) = x :: specDedupFirstSeen (xs.filter (fun y => y ≠ x)) := by
  rw [specDedupFirstSeen]

theorem dedupKeys_foldl_general : ∀ (l acc : List String),
    l.foldl (fun acc x => if x ∈ acc then acc else acc ++ [x]) acc =
      acc ++ specDedupFirstSeen (l.filter (fun y => decide (y ∉ acc))) := by
  intro l
  induction l with
  | nil => intro acc; simp [specDedupFirstSeen]
  | cons x xs ih =>
    intro acc
    by_cases hx : x ∈ acc
    · simp only [List.foldl_cons, if_pos hx, List.filter_cons]
      have : decide (x ∉ acc) = false := by simp [hx]
      rw [this]
      simp only [Bool.false_eq_true, if_neg (by simp : ¬False)]
      exact ih acc
    · simp only [List.foldl_cons, if_neg hx, List.filter_cons]
      have hd : decide (x ∉ acc) = true := by simp [hx]
      rw [hd, if_pos rfl]
      rw [ih (acc ++ [x]), specDedupFirstSeen_cons, List.append_assoc,
        List.singleton_append]
      congr 3
      rw [List.filter_filter]
      refine List.filter_congr ?_
      intro y _
      by_cases hy : y = x <;> by_cases hya : y ∈ acc <;>
        simp [hy, hya, List.mem_append]

theorem dedupKeys_eq_spec (l : List String) :
    dedupKeys l = specDedupFirstSeen l := by
  rw [dedupKeys, dedupKeys_foldl_general l []]
  simp only [List.nil_append]
  congr 1
  refine List.filter_eq_self.mpr ?_
  intro a _
  simp

theorem mem_specDedup_len {x : String} : ∀ (n : Nat) (l : List String),
    l.length ≤ n → (x ∈ specDedupFirstSeen l ↔ x ∈ l) := by
  intro n
  induction n with
  | zero =>
    intro l hl
    have : l = [] := List.length_eq_zero.mp (Nat.le_zero.mp hl)
    subst this
    simp [specDedupFirstSeen]
  | succ n ih =>
    intro l hl
    cases l with
    | nil => simp [specDedupFirstSeen]
    | cons y ys =>
      rw [specDedupFirstSeen_cons]
      have hlen : (ys.filter (fun z => z ≠ y)).length ≤ n := by
        have := List.length_filter_le (fun z => z ≠ y) ys
        simp only [List.length_cons, Nat.succ_le_succ_iff] at hl
        omega
      rw [List.mem_cons, ih _ hlen, List.mem_cons]
      constructor
      · rintro (h | h)
        · exact Or.inl h
        · exact Or.inr (List.mem_filter.mp h).1
      · rintro (h | h)
        · exact Or.inl h
        · by_cases hxy : x = y
          · exact Or.inl hxy
          · exact Or.inr (List.mem_filter.mpr ⟨h, by simp [hxy]⟩)

theorem mem_specDedup {x : String} {l : List String} :
    x ∈ specDedupFirstSeen l ↔ x ∈ l :=
  mem_specDedup_len l.length l (Nat.le_refl _)

theorem nodup_specDedup_len : ∀ (n : Nat) (l : List String),
    l.length ≤ n → (specDedupFirstSeen l).Nodup := by
  intro n
  induction n with
  | zero =>
    intro l hl
    have : l = [] := List.length_eq_zero.mp (Nat.le_zero.mp hl)
    subst this
    simp [specDedupFirstSeen]
  | succ n ih =>
    intro l hl
    cases l with
    | nil => simp [specDedupFirstSeen]
    | cons y ys =>
      rw [specDedupFirstSeen_cons]
      have hlen : (ys.filter (fun z => z ≠ y)).length ≤ n := by
        have := List.length_filter_le (fun z => z ≠ y) ys
        simp only [List.length_cons, Nat.succ_le_succ_iff] at hl
        omega
      rw [List.nodup_cons]
      refine ⟨?_, ih _ hlen⟩
      intro hy
      have := (List.mem_filter.mp (mem_specDedup.mp hy)).2
      simp at this

theorem nodup_specDedup (l : List String) : (specDedupFirstSeen l).Nodup :=
  nodup_specDedup_len l.length l (Nat.le_refl _)

theorem mem_dedupKeys {x : String} {l : List String} :
    x ∈ dedupKeys l ↔ x ∈ l := by
  rw [dedupKeys_eq_spec]
  exact mem_specDedup

/-! ## Monotonicity of the store-path query window -/

theorem storeBanCount_mono {db : DBState} {s1 s2 : DT} (h1 : validDT s1 = true)
    (h2 : validDT s2 = true) (hle : dtLe s1 s2 = true) :
    storeBanCount db s2 ≤ storeBanCount db s1 := by
  simp only [storeBanCount, fetch_bans]
  by_cases hc : db.connOk
  · simp only [if_pos hc, List.countP_filter]
    refine List.countP_mono_left ?_
    intro r _ hr
    simp only [Bool.and_eq_true] at hr ⊢
    exact ⟨hr.1, strLe_trans (fmtDT_mono h1 h2 hle) hr.2⟩
  · simp [if_neg hc]

theorem mem_storeExtract {db : DBState} {since : Option DT} {ip : String} :
    ip ∈ storeExtract db since ↔
      ip ∈ ((fetch_bans db since).filter (fun r => actionHasBan r.action)).map
        (fun r => r.ip) := by
  simp only [storeExtract]
  exact mem_dedupKeys

/-! ## Monotonicity and characterisation of the log-fallback paths -/

theorem fallbackCountAux_mono {s1 s2 : DT} (h : dtLe s1 s2 = true) :
    ∀ ls : List String, fallbackCountAux s2 ls ≤ fallbackCountAux s1 ls := by
  intro ls
  induction ls with
  | nil => exact Nat.le_refl _
  | cons line rest ih =>
    simp only [fallbackCountAux]
    by_cases hb : lineHasBanWord line
    · simp only [if_pos hb]
      cases hp : parse_log_timestamp line with
      | none => exact ih
      | some ts =>
        by_cases h2 : dtLe s2 ts = true
        · have h1t : dtLe s1 ts = true := dtLe_trans h h2
          simp only [h2, h1t, if_pos]
          exact Nat.succ_le_succ ih
        · simp only [Bool.not_eq_true] at h2
          simp only [h2, Bool.false_eq_true, if_neg (by simp : ¬False)]
          split <;> exact Nat.zero_le _
    · simp only [if_neg hb]
      exact ih

theorem fallbackCount_mono {log : List String} {s1 s2 : DT}
    (h : dtLe s1 s2 = true) : fallbackCount log s2 ≤ fallbackCount log s1 :=
  fallbackCountAux_mono h log.reverse

theorem fallbackIpLine_some_iff {s : DT} {line ip : String} :
    fallbackIpLine (some s) line = some ip ↔
      lineHasBanWord line = true ∧ findBanIp line.data = some ip ∧
        ∃ ts, parse_log_timestamp line = some ts ∧ dtLt ts s = false := by
  unfold fallbackIpLine
  split
  next hb1 =>
    split
    next hip => simp [hb1, hip]
    next ip0 hip =>
      split
      next t ht =>
        have he : s = t := by injection ht
        subst he
        split
        next hp => simp [hb1, hip, hp]
        next ts hp =>
          by_cases hlt : dtLt ts s = true
          · simp [hb1, hip, hp, hlt]
          · simp only [Bool.not_eq_true] at hlt
            simp [hb1, hip, hp, hlt]
      next ht => exact absurd ht (by simp)
  next hb =>
    simp only [Bool.not_eq_true] at hb
    simp [hb]

theorem fallbackIpLine_mono {s1 s2 : DT} (h : dtLe s1 s2 = true) {line ip : String}
    (hm : fallbackIpLine (some s2) line = some ip) :
    fallbackIpLine (some s1) line = some ip := by
  rw [fallbackIpLine_some_iff] at hm ⊢
  obtain ⟨h1, h2, ts, h3, h4⟩ := hm
  exact ⟨h1, h2, ts, h3, dtLt_false_mono h h4⟩

theorem fallbackExtract_mono {log : List String} {s1 s2 : DT}
    (h : dtLe s1 s2 = true) {ip : String}
    (hmem : ip ∈ fallbackExtract log (some s2)) :
    ip ∈ fallbackExtract log (some s1) := by
  simp only [fallbackExtract] at hmem ⊢
  rw [mem_dedupKeys] at hmem ⊢
  rw [List.mem_filterMap] at hmem ⊢
  obtain ⟨line, hline, hsome⟩ := hmem
  exact ⟨line, hline, fallbackIpLine_mono h hsome⟩

theorem fallbackCountAux_eq_countP {since : DT} : ∀ ls : List String,
    List.Pairwise (fun a b => dtLe b a = true) (tsSeq ls) →
    fallbackCountAux since ls = ls.countP (inWindowLine since) := by
  intro ls
  induction ls with
  | nil => intro _; rfl
  | cons line rest ih =>
    intro hpw
    simp only [fallbackCountAux, List.countP_cons]
    by_cases hb : lineHasBanWord line
    · simp only [if_pos hb]
      cases hp : parse_log_timestamp line with
      | none =>
        have hw : inWindowLine since line = false := by
          simp [inWindowLine, hp]
        rw [hw]
        simp only [Bool.false_eq_true, if_neg (by simp : ¬False), Nat.add_zero]
        refine ih ?_
        have : tsSeq (line :: rest) = tsSeq rest := by
          simp [tsSeq, List.filterMap_cons, hb, hp]
        rw [this] at hpw
        exact hpw
      | some ts =>
        dsimp only
        have hts : tsSeq (line :: rest) = ts :: tsSeq rest := by
          simp [tsSeq, List.filterMap_cons, hb, hp]
        rw [hts, List.pairwise_cons] at hpw
        by_cases h2 : dtLe since ts = true
        · have hw : inWindowLine since line = true := by
            simp [inWindowLine, hp, hb, h2]
          rw [hw, if_pos rfl, h2, if_pos rfl, ih hpw.2]
        · have hw : inWindowLine since line = false := by
            simp only [Bool.not_eq_true] at h2
            simp [inWindowLine, hp, h2]
          simp only [Bool.not_eq_true] at h2
          rw [hw]
          simp only [h2, Bool.false_eq_true, if_neg (by simp : ¬False), Nat.add_zero]
          symm
          rw [List.countP_eq_zero]
          intro l' hl' hwl'
          simp only [inWindowLine, Bool.and_eq_true] at hwl'
          obtain ⟨hbl', hpl'⟩ := hwl'
          cases hp' : parse_log_timestamp l' with
          | none => rw [hp'] at hpl'; simp at hpl'
          | some ts' =>
            rw [hp'] at hpl'
            have hmem : ts' ∈ tsSeq rest := by
              rw [tsSeq, List.mem_filterMap]
              exact ⟨l', hl', by simp [hbl', hp']⟩
            have hled : dtLe ts' ts = true := hpw.1 ts' hmem
            have : dtLe since ts = true := dtLe_trans hpl' hled
            rw [this] at h2
            exact absurd h2 (by simp)
    · simp only [if_neg hb]
      have hw : inWindowLine since line = false := by
        simp only [Bool.not_eq_true] at hb
        simp [inWindowLine, hb]
      rw [hw]
      simp only [Bool.false_eq_true, if_neg (by simp : ¬False), Nat.add_zero]
      refine ih ?_
      have : tsSeq (line :: rest) = tsSeq rest := by
        simp only [Bool.not_eq_true] at hb
        simp [tsSeq, List.filterMap_cons, hb]
      rw [this] at hpw
      exact hpw

theorem fallbackCount_eq_countP {log : List String} {since : DT}
    (hsorted : List.Pairwise (fun a b => dtLe a b = true) (tsSeq log)) :
    fallbackCount log since = log.countP (inWindowLine since) := by
  rw [fallbackCount, fallbackCountAux_eq_countP, List.countP_reverse]
  rw [tsSeq, List.filterMap_reverse, List.pairwise_reverse]
  exact hsorted

/-! ## Case equations and invariants of the log scanner -/

theorem syncLine_skip_class {resolver : String → String × String}
    {st : DBState × GeoCache} {line : String} {now : DT}
    (hc : classifyAction line = none) : syncLine resolver st line now = st := by
  simp [syncLine, hc]

theorem syncLine_skip_ip {resolver : String → String × String}
    {st : DBState × GeoCache} {line : String} {now : DT} {act : String}
    (hc : classifyAction line = some act) (hip : findActionIp line.data = none) :
    syncLine resolver st line now = st := by
  simp [syncLine, hc, hip]

theorem syncLine_skip_exists {resolver : String → String × String}
    {st : DBState × GeoCache} {line : String} {now : DT} {act ip : String}
    (hc : classifyAction line = some act) (hip : findActionIp line.data = some ip)
    (hex : ban_exists st.1 ((parse_log_timestamp line).getD now) ip = true) :
    syncLine resolver st line now = st := by
  simp [syncLine, hc, hip, hex]

theorem syncLine_insert {resolver : String → String × String}
    {st : DBState × GeoCache} {line : String} {now : DT} {act ip : String}
    (hc : classifyAction line = some act) (hip : findActionIp line.data = some ip)
    (hex : ban_exists st.1 ((parse_log_timestamp line).getD now) ip = false) :
    syncLine resolver st line now =
      (insert_ban st.1 ip ((findJail line.data).getD "Unknown") act
        (get_geo_info resolver st.2 ip).1.country (get_geo_info resolver st.2 ip).1.city
        (stripStr line) (some ((parse_log_timestamp line).getD now)) now,
       (get_geo_info resolver st.2 ip).2) := by
  simp [syncLine, hc, hip, hex]

theorem syncLine_rows_grow (resolver : String → String × String)
    (st : DBState × GeoCache) (line : String) (now : DT) :
    st.1.rows <+: (syncLine resolver st line now).1.rows := by
  cases hc : classifyAction line with
  | none => rw [syncLine_skip_class hc]
  | some act =>
    cases hip : findActionIp line.data with
    | none => rw [syncLine_skip_ip hc hip]
    | some ip =>
      by_cases hex : ban_exists st.1 ((parse_log_timestamp line).getD now) ip = true
      · rw [syncLine_skip_exists hc hip hex]
      · rw [syncLine_insert hc hip (by simpa using hex)]
        simp only [insert_ban]
        by_cases hok : st.1.connOk
        · simp only [if_pos hok]
          exact ⟨_, rfl⟩
        · simp only [if_neg hok]
          exact ⟨[], List.append_nil _⟩

theorem syncLine_connOk (resolver : String → String × String)
    (st : DBState × GeoCache) (line : String) (now : DT) :
    (syncLine resolver st line now).1.connOk = st.1.connOk := by
  cases hc : classifyAction line with
  | none => rw [syncLine_skip_class hc]
  | some act =>
    cases hip : findActionIp line.data with
    | none => rw [syncLine_skip_ip hc hip]
    | some ip =>
      by_cases hex : ban_exists st.1 ((parse_log_timestamp line).getD now) ip = true
      · rw [syncLine_skip_exists hc hip hex]
      · rw [syncLine_insert hc hip (by simpa using hex)]
        simp only [insert_ban]
        by_cases hok : st.1.connOk <;> simp [hok]

theorem ban_exists_iff_key {db : DBState} {ts : DT} {ip : String} (hok : db.connOk = true) :
    ban_exists db ts ip = true ↔ (fmtDT ts, ip) ∈ keysOf db := by
  simp only [ban_exists, if_pos hok, List.any_eq_true, keysOf, List.mem_map,
    Bool.and_eq_true, beq_iff_eq]
  constructor
  · rintro ⟨r, hr, h1, h2⟩
    exact ⟨r, hr, by rw [h1, h2]⟩
  · rintro ⟨r, hr, h⟩
    obtain ⟨h1, h2⟩ := Prod.mk.injEq .. ▸ h
    exact ⟨r, hr, by rw [h1], by rw [h2]⟩

theorem syncLine_key_present {resolver : String → String × String}
    {st : DBState × GeoCache} {line : String} {now : DT} {act ip : String} {ts : DT}
    (hok : st.1.connOk = true)
    (hc : classifyAction line = some act) (hip : findActionIp line.data = some ip)
    (hp : parse_log_timestamp line = some ts) :
    (fmtDT ts, ip) ∈ keysOf (syncLine resolver st line now).1 := by
  by_cases hex : ban_exists st.1 ((parse_log_timestamp line).getD now) ip = true
  · rw [syncLine_skip_exists hc hip hex]
    rw [hp] at hex
    exact (ban_exists_iff_key hok).mp hex
  · rw [syncLine_insert hc hip (by simpa using hex), hp]
    simp only [insert_ban, Option.getD_some, if_pos hok, keysOf, List.map_append,
      List.mem_append]
    right
    simp

theorem syncLine_noop {resolver : String → String × String}
    {st : DBState × GeoCache} {line : String} {now : DT} {act ip : String} {ts : DT}
    (hok : st.1.connOk = true)
    (hc : classifyAction line = some act) (hip : findActionIp line.data = some ip)
    (hp : parse_log_timestamp line = some ts)
    (hkey : (fmtDT ts, ip) ∈ keysOf st.1) :
    syncLine resolver st line now = st := by
  refine syncLine_skip_exists hc hip ?_
  rw [hp]
  exact (ban_exists_iff_key hok).mpr hkey

theorem syncFold_rows_grow (resolver : String → String × String) (now : DT) :
    ∀ (log : List String) (st : DBState × GeoCache),
      st.1.rows <+: (log.foldl (fun st line => syncLine resolver st line now) st).1.rows := by
  intro log
  induction log with
  | nil => intro st; exact ⟨[], List.append_nil _⟩
  | cons line rest ih =>
    intro st
    rw [List.foldl_cons]
    exact (syncLine_rows_grow resolver st line now).trans (ih _)

theorem syncFold_connOk (resolver : String → String × String) (now : DT) :
    ∀ (log : List String) (st : DBState × GeoCache),
      (log.foldl (fun st line => syncLine resolver st line now) st).1.connOk =
        st.1.connOk := by
  intro log
  induction log with
  | nil => intro st; rfl
  | cons line rest ih =>
    intro st
    rw [List.foldl_cons, ih _, syncLine_connOk]

theorem key_mem_of_grow {db1 db2 : DBState} {k : String × String}
    (h : db1.rows <+: db2.rows) (hk : k ∈ keysOf db1) : k ∈ keysOf db2 := by
  simp only [keysOf, List.mem_map] at hk ⊢
  obtain ⟨r, hr, hk⟩ := hk
  exact ⟨r, h.subset hr, hk⟩

theorem syncFold_all_keys {resolver : String → String × String} {now : DT} :
    ∀ (log : List String) (st : DBState × GeoCache), st.1.connOk = true →
      ∀ line ∈ log, ∀ act ip ts, classifyAction line = some act →
        findActionIp line.data = some ip → parse_log_timestamp line = some ts →
        (fmtDT ts, ip) ∈
          keysOf (log.foldl (fun st line => syncLine resolver st line now) st).1 := by
  intro log
  induction log with
  | nil => intro st _ line h; exact absurd h (List.not_mem_nil line)
  | cons first rest ih =>
    intro st hok line hline act ip ts hc hip hp
    rw [List.foldl_cons]
    rcases List.mem_cons.mp hline with rfl | hmem
    · refine key_mem_of_grow (syncFold_rows_grow resolver now rest _) ?_
      exact syncLine_key_present hok hc hip hp
    · refine ih _ ?_ line hmem act ip ts hc hip hp
      rw [syncLine_connOk]
      exact hok

theorem syncFold_noop {resolver : String → String × String} {now : DT} :
    ∀ (log : List String) (st : DBState × GeoCache), st.1.connOk = true →
      (∀ line ∈ log, ∀ act ip, classifyAction line = some act →
        findActionIp line.data = some ip →
        ∃ ts, parse_log_timestamp line = some ts ∧ (fmtDT ts, ip) ∈ keysOf st.1) →
      log.foldl (fun st line => syncLine resolver st line now) st = st := by
  intro log
  induction log with
  | nil => intro st _ _; rfl
  | cons first rest ih =>
    intro st hok hall
    rw [List.foldl_cons]
    have hfirst : syncLine resolver st first now = st := by
      cases hc : classifyAction first with
      | none => exact syncLine_skip_class hc
      | some act =>
        cases hip : findActionIp first.data with
        | none => exact syncLine_skip_ip hc hip
        | some ip =>
          obtain ⟨ts, hp, hkey⟩ := hall first (List.mem_cons_self _ _) act ip hc hip
          exact syncLine_noop hok hc hip hp hkey
    rw [hfirst]
    exact ih st hok (fun line hl => hall line (List.mem_cons_of_mem _ hl))

theorem syncLine_rows_degraded {resolver : String → String × String}
    {st : DBState × GeoCache} {line : String} {now : DT}
    (hok : st.1.connOk = false) :
    (syncLine resolver st line now).1.rows = st.1.rows := by
  cases hc : classifyAction line with
  | none => rw [syncLine_skip_class hc]
  | some act =>
    cases hip : findActionIp line.data with
    | none => rw [syncLine_skip_ip hc hip]
    | some ip =>
      by_cases hex : ban_exists st.1 ((parse_log_timestamp line).getD now) ip = true
      · rw [syncLine_skip_exists hc hip hex]
      · rw [syncLine_insert hc hip (by simpa using hex)]
        simp [insert_ban, hok]

theorem syncFold_rows_degraded {resolver : String → String × String} {now : DT} :
    ∀ (log : List String) (st : DBState × GeoCache), st.1.connOk = false →
      (log.foldl (fun st line => syncLine resolver st line now) st).1.rows =
        st.1.rows := by
  intro log
  induction log with
  | nil => intro st _; rfl
  | cons line rest ih =>
    intro st hok
    rw [List.foldl_cons, ih _ (by rw [syncLine_connOk]; exact hok),
      syncLine_rows_degraded hok]

theorem syncLine_keys_nodup {resolver : String → String × String}
    {st : DBState × GeoCache} {line : String} {now : DT}
    (hnd : (keysOf st.1).Nodup) :
    (keysOf (syncLine resolver st line now).1).Nodup := by
  cases hc : classifyAction line with
  | none => rw [syncLine_skip_class hc]; exact hnd
  | some act =>
    cases hip : findActionIp line.data with
    | none => rw [syncLine_skip_ip hc hip]; exact hnd
    | some ip =>
      by_cases hex : ban_exists st.1 ((parse_log_timestamp line).getD now) ip = true
      · rw [syncLine_skip_exists hc hip hex]; exact hnd
      · rw [syncLine_insert hc hip (by simpa using hex)]
        by_cases hok : st.1.connOk
        · simp only [insert_ban, if_pos hok, keysOf, List.map_append]
          rw [List.nodup_append]
          refine ⟨hnd, by simp, ?_⟩
          intro k hk
          simp only [List.map_cons, List.map_nil, List.mem_singleton]
          intro hk2
          subst hk2
          have : ban_exists st.1 ((parse_log_timestamp line).getD now) ip = true :=
            (ban_exists_iff_key (by simpa using hok)).mpr hk
          simp [this] at hex
        · simp only [insert_ban, if_neg hok]
          exact hnd

theorem syncFold_keys_nodup {resolver : String → String × String} {now : DT} :
    ∀ (log : List String) (st : DBState × GeoCache), (keysOf st.1).Nodup →
      (keysOf (log.foldl (fun st line => syncLine resolver st line now) st).1).Nodup := by
  intro log
  induction log with
  | nil => intro st h; exact h
  | cons line rest ih =>
    intro st hnd
    rw [List.foldl_cons]
    exact ih _ (syncLine_keys_nodup hnd)

theorem multiSync_keys_nodup (resolver : String → String × String) :
    ∀ (runs : List (List String × DT)) (st : DBState × GeoCache),
      (keysOf st.1).Nodup → (keysOf (runs.foldl
        (fun st run => syncRun st.1 run.1 run.2 resolver st.2) st).1).Nodup := by
  intro runs
  induction runs with
  | nil => intro st h; exact h
  | cons run rest ih =>
    intro st hnd
    rw [List.foldl_cons]
    refine ih _ ?_
    simp only [syncRun]
    exact syncFold_keys_nodup _ _ hnd

/-! ## LRU behaviour of the geolocation cache -/

theorem getGeoInfoCap_len {cap : Nat} {resolver : String → String × String}
    {c : GeoCache} {ip : String} (h : c.length ≤ cap) :
    ((getGeoInfoCap cap resolver c ip).2).length ≤ cap := by
  simp only [getGeoInfoCap]
  split
  next e hf =>
    have hmem : e ∈ c := List.mem_of_find?_eq_some hf
    have hlt : (c.filter (fun x => x.1 ≠ ip)).length < c.length := by
      rw [List.length_filter_lt_length_iff_exists]
      refine ⟨e, hmem, ?_⟩
      have := List.find?_some hf
      simp only [beq_iff_eq] at this
      simp [this]
    dsimp only
    simp only [List.length_append, List.length_singleton]
    omega
  next hf =>
    dsimp only
    split
    next hlt =>
      simp only [List.length_drop, List.length_append, List.length_singleton]
      omega
    next hge =>
      simp only [List.length_append, List.length_singleton] at hge ⊢
      omega

theorem foldGeo_len {cap : Nat} {resolver : String → String × String} :
    ∀ (ips : List String) (c : GeoCache), c.length ≤ cap →
      (foldGeo cap resolver c ips).length ≤ cap := by
  intro ips
  induction ips with
  | nil => intro c h; exact h
  | cons ip rest ih =>
    intro c h
    simp only [foldGeo, List.foldl_cons]
    exact ih _ (getGeoInfoCap_len h)

theorem getGeoInfoCap_hit {cap : Nat} {resolver : String → String × String}
    {c : GeoCache} {ip : String} (h : ip ∈ c.map Prod.fst) :
    ∃ v, (ip, v) ∈ c ∧
      getGeoInfoCap cap resolver c ip =
        (v, (c.filter (fun x => x.1 ≠ ip)) ++ [(ip, v)]) := by
  have hsome : (c.find? (fun e => e.1 == ip)).isSome := by
    rw [List.find?_isSome]
    simp only [List.mem_map] at h
    obtain ⟨e, he, hfst⟩ := h
    exact ⟨e, he, by simp [hfst]⟩
  obtain ⟨e, hf⟩ := Option.isSome_iff_exists.mp hsome
  have hkey : e.1 = ip := by
    have := List.find?_some hf
    simpa using this
  refine ⟨e.2, ?_, ?_⟩
  · have : e = (ip, e.2) := by rw [← hkey]
    rw [← this]
    exact List.mem_of_find?_eq_some hf
  · simp [getGeoInfoCap, hf]

theorem drop_one_append {α : Type} (c : List α) (x : α) (h : c ≠ []) :
    (c ++ [x]).drop 1 = c.tail ++ [x] := by
  cases c with
  | nil => exact absurd rfl h
  | cons a t => simp

theorem getGeoInfoCap_evict {cap : Nat} {resolver : String → String × String}
    {c : GeoCache} {ip : String} (hcap : 1 ≤ cap) (hlen : c.length = cap)
    (h : ip ∉ c.map Prod.fst) :
    getGeoInfoCap cap resolver c ip =
      (lookupGeo resolver ip, c.tail ++ [(ip, lookupGeo resolver ip)]) := by
  have hf : c.find? (fun e => e.1 == ip) = none := by
    rw [List.find?_eq_none]
    intro e he
    simp only [beq_iff_eq]
    intro heq
    exact h (List.mem_map.mpr ⟨e, he, heq⟩)
  have hne : c ≠ [] := by
    intro hnil
    rw [hnil] at hlen
    simp at hlen
    omega
  have hc : cap < (c ++ [(ip, lookupGeo resolver ip)]).length := by
    simp [hlen]
  simp only [getGeoInfoCap, hf, if_pos hc]
  rw [drop_one_append _ _ hne]

theorem filter_ne_length_nodup {k : String} :
    ∀ c : GeoCache, (c.map Prod.fst).Nodup → k ∈ c.map Prod.fst →
      (c.filter (fun e => e.1 ≠ k)).length + 1 = c.length := by
  intro c
  induction c with
  | nil => intro _ h; simp at h
  | cons e rest ih =>
    intro hnd hk
    simp only [List.map_cons, List.nodup_cons] at hnd
    rw [List.map_cons] at hk
    rw [List.filter_cons]
    by_cases hek : e.1 = k
    · have hpe : (decide (e.1 ≠ k)) = false := by simp [hek]
      rw [hpe]
      simp only [Bool.false_eq_true, if_neg (by simp : ¬False)]
      have hrest : rest.filter (fun x => decide (x.1 ≠ k)) = rest := by
        rw [List.filter_eq_self]
        intro a ha
        simp only [decide_eq_true_eq, ne_eq]
        intro heq
        refine absurd ?_ hnd.1
        rw [hek]
        exact List.mem_map.mpr ⟨a, ha, heq⟩
      rw [hrest]
      simp
    · have hpe : (decide (e.1 ≠ k)) = true := by simp [hek]
      rw [hpe, if_pos rfl]
      have hkrest : k ∈ rest.map Prod.fst := by
        rcases List.mem_cons.mp hk with h | h
        · exact absurd h.symm hek
        · exact h
      have := ih hnd.2 hkrest
      simp only [List.length_cons]
      omega

theorem getGeoInfoCap_protect {cap : Nat} {resolver : String → String × String}
    {c : GeoCache} {ip k : String} (hcap : 2 ≤ cap) (hlen : c.length = cap)
    (hnd : (c.map Prod.fst).Nodup) (hk : k ∈ c.map Prod.fst)
    (hip : ip ∉ c.map Prod.fst) (hne : ip ≠ k) :
    k ∈ ((getGeoInfoCap cap resolver
      (getGeoInfoCap cap resolver c k).2 ip).2).map Prod.fst := by
  obtain ⟨v, hvmem, hstep⟩ := @getGeoInfoCap_hit cap resolver c k hk
  rw [hstep]
  set c1 : GeoCache := (c.filter (fun x => x.1 ≠ k)) ++ [(k, v)] with hc1
  have hlen1 : c1.length = cap := by
    rw [hc1, List.length_append, List.length_singleton,
      filter_ne_length_nodup c hnd hk, hlen]
  have hipc1 : ip ∉ c1.map Prod.fst := by
    rw [hc1]
    simp only [List.map_append, List.mem_append, List.map_cons, List.map_nil,
      List.mem_singleton, not_or]
    constructor
    · intro hmem
      refine hip ?_
      simp only [List.mem_map] at hmem ⊢
      obtain ⟨e, he, hfst⟩ := hmem
      exact ⟨e, (List.mem_filter.mp he).1, hfst⟩
    · exact hne
  rw [getGeoInfoCap_evict (by omega) hlen1 hipc1]
  have hfil : (c.filter (fun x => x.1 ≠ k)) ≠ [] := by
    intro hnil
    have := filter_ne_length_nodup c hnd hk
    rw [hnil] at this
    simp at this
    omega
  rw [hc1]
  cases hcf : c.filter (fun x => x.1 ≠ k) with
  | nil => exact absurd hcf hfil
  | cons a t =>
    simp only [List.cons_append, List.tail_cons, List.map_append, List.mem_append]
    left
    simp

theorem storeExtract_mono {db : DBState} {s1 s2 : DT} (h1 : validDT s1 = true)
    (h2 : validDT s2 = true) (hle : dtLe s1 s2 = true) {ip : String}
    (hmem : ip ∈ storeExtract db (some s2)) : ip ∈ storeExtract db (some s1) := by
  rw [mem_storeExtract] at hmem ⊢
  simp only [List.mem_map] at hmem ⊢
  obtain ⟨r, hr, hip⟩ := hmem
  refine ⟨r, ?_, hip⟩
  rw [List.mem_filter] at hr ⊢
  refine ⟨?_, hr.2⟩
  have hf := hr.1
  simp only [fetch_bans] at hf ⊢
  by_cases hc : db.connOk
  · simp only [if_pos hc] at hf ⊢
    rw [List.mem_filter] at hf ⊢
    exact ⟨hf.1, strLe_trans (fmtDT_mono h1 h2 hle) hf.2⟩
  · simp [if_neg hc] at hf



/-! ## Claim theorems -/

/-- C1 (amended): when the store fails to initialize (`connOk = false`, the
caught `__init__` exception), `exists` returns false and `fetch` returns the
empty sequence; but the dependent query operations switch to the
log-fallback only when no store manager object is supplied (`None`): with a
degraded manager object present they take the store path and return
zero/empty results instead of the log-fallback answer. -/
theorem claim_C1_amended :
    (∀ (rows : List BanRow) (ts : DT) (ip : String),
      ban_exists ⟨false, rows⟩ ts ip = false) ∧
    (∀ (rows : List BanRow) (since : Option DT),
      fetch_bans ⟨false, rows⟩ since = []) ∧
    (∀ (rows : List BanRow) (log : List String) (now : DT) (h : Nat),
      count_bans_in_period (some ⟨false, rows⟩) log now h = 0) ∧
    (∀ (rows : List BanRow) (log : List String) (now : DT) (sh : Option Nat),
      extract_banned_ips (some ⟨false, rows⟩) log now sh = []) ∧
    (∀ (rows : List BanRow) (log : List String) (start : DT),
      collectBans (some ⟨false, rows⟩) log start = []) ∧
    (∀ (log : List String) (now : DT) (h : Nat),
      count_bans_in_period none log now h = fallbackCount log (subHours now h)) ∧
    (∀ (log : List String) (now : DT),
      extract_banned_ips none log now none = fallbackExtract log none) := by
  refine ⟨?_, ?_, ?_, ?_, ?_, ?_, ?_⟩
  · intro rows ts ip
    simp [ban_exists]
  · intro rows since
    simp [fetch_bans]
  · intro rows log now h
    simp [count_bans_in_period, storeBanCount, fetch_bans]
  · intro rows log now sh
    simp [extract_banned_ips, storeExtract, fetch_bans, dedupKeys]
  · intro rows log start
    simp [collectBans, fetch_bans]
  · intro log now h
    rfl
  · intro log now
    rfl

/-- C1 (counterexample): the claim says a query against a store that failed
to initialize detects the degradation and answers from the log-fallback
path; but with one in-window ban line in the log the degraded-store query
answers 0 from the (empty) store path while the fallback answer is 1 —
the fallback is taken only when the manager object is absent. -/
theorem claim_C1_counterexample :
    count_bans_in_period (some ⟨false, []⟩)
      ["2023-10-27 10:30:00 fail2ban.actions [sshd] Ban 10.0.0.1"]
      ⟨2023, 10, 27, 12, 0, 0⟩ 24 = 0 ∧
    count_bans_in_period none
      ["2023-10-27 10:30:00 fail2ban.actions [sshd] Ban 10.0.0.1"]
      ⟨2023, 10, 27, 12, 0, 0⟩ 24 = 1 := by
  exact ⟨by decide, by decide⟩

/-- C2 (code bug, evaluation at the failing input): for hours = 720 (the
"Month" period) the bucket width computed by
`generate_single_period_plot` is `timedelta(days=hours * 24 / 12)` =
1440 days instead of the 720/12 = 60 hours needed for twelve evenly
spaced buckets covering the window.  At now = 2023-10-27 12:00:00 with
two in-window events 60+ hours apart (2023-10-27 11:00:00 and
2023-09-28 00:00:00), both land in the first bucket and the remaining
eleven buckets are empty, their labels running years past `now`: the
second bucket already starts at 2027-09-06, strictly after the window
end, so the bucket union does not coincide with the query window. -/
theorem claim_C2_bug :
    generate_single_period_plot (some ⟨true,
      [⟨"2023-10-27 11:00:00", "1.2.3.4", "sshd", "Ban", none, "Unknown", "Unknown", "r1"⟩,
       ⟨"2023-09-28 00:00:00", "5.6.7.8", "sshd", "Ban", none, "Unknown", "Unknown", "r2"⟩]⟩)
      [] ⟨2023, 10, 27, 12, 0, 0⟩ 720 =
      [("09-27", 2), ("09-06", 0), ("08-16", 0), ("07-26", 0), ("07-05", 0), ("06-14", 0),
       ("05-24", 0), ("05-03", 0), ("04-12", 0), ("03-22", 0), ("03-01", 0), ("02-08", 0)] ∧
    (bucketCfg 720).intervalSecs = 2 * 720 * 86400 ∧
    addSecs (subHours ⟨2023, 10, 27, 12, 0, 0⟩ 720) (bucketCfg 720).intervalSecs =
      ⟨2027, 9, 6, 12, 0, 0⟩ ∧
    dtLt ⟨2023, 10, 27, 12, 0, 0⟩ ⟨2027, 9, 6, 12, 0, 0⟩ = true := by
  exact ⟨by decide, by decide, by decide, by decide⟩

/-- C3 (counterexample): scanning is not idempotent for every log content.
A classified line without a parseable timestamp receives the scan time as
its identity key, so re-scanning the unchanged log at a later clock
re-inserts it: after the second run the store holds two rows where the
claim requires the contents to equal those after the first run. -/
theorem claim_C3_counterexample :
    ((syncRun (syncRun ⟨true, []⟩ ["[sshd] Ban 1.2.3.4"] ⟨2023, 10, 27, 10, 0, 0⟩
        resU []).1 ["[sshd] Ban 1.2.3.4"] ⟨2023, 10, 27, 10, 5, 0⟩ resU
        (syncRun ⟨true, []⟩ ["[sshd] Ban 1.2.3.4"] ⟨2023, 10, 27, 10, 0, 0⟩
          resU []).2).1).rows ≠
      ((syncRun ⟨true, []⟩ ["[sshd] Ban 1.2.3.4"] ⟨2023, 10, 27, 10, 0, 0⟩
        resU []).1).rows := by
  decide

/-- C3 (amended): scanning is idempotent for every log whose classified,
IP-carrying lines all have a parseable timestamp: running the Log Scanner
sync once and then again on the unchanged log leaves the store contents
after the second run equal to the contents after the first, whatever clock each
of the two runs sees. -/
theorem claim_C3_amended : ∀ (db : DBState) (log : List String) (now1 now2 : DT)
    (resolver : String → String × String) (cache : GeoCache),
    (∀ line ∈ log, lineKeyed line = true → (parse_log_timestamp line).isSome = true) →
    ((syncRun (syncRun db log now1 resolver cache).1 log now2 resolver
        (syncRun db log now1 resolver cache).2).1).rows =
      ((syncRun db log now1 resolver cache).1).rows := by
  intro db log now1 now2 r c hpars
  by_cases hok : db.connOk
  · have hok1 : ((syncRun db log now1 r c).1).connOk = true := by
      simp only [syncRun]
      rw [syncFold_connOk]
      exact hok
    have heta : ((syncRun db log now1 r c).1, (syncRun db log now1 r c).2) =
        syncRun db log now1 r c := rfl
    have hnoop : log.foldl (fun st line => syncLine r st line now2)
        ((syncRun db log now1 r c).1, (syncRun db log now1 r c).2) =
        ((syncRun db log now1 r c).1, (syncRun db log now1 r c).2) := by
      refine syncFold_noop log _ hok1 ?_
      intro line hline act ip hc hip
      have hkeyed : lineKeyed line = true := by
        simp [lineKeyed, hc, hip]
      obtain ⟨ts, hp⟩ := Option.isSome_iff_exists.mp (hpars line hline hkeyed)
      refine ⟨ts, hp, ?_⟩
      have := @syncFold_all_keys r now1 log (db, c) hok
        line hline act ip ts hc hip hp
      simpa [syncRun] using this
    simp only [syncRun] at hnoop ⊢
    rw [hnoop]
  · have hok0 : ((syncRun db log now1 r c).1).connOk = false := by
      simp only [syncRun]
      rw [syncFold_connOk]
      simpa using hok
    simp only [syncRun]
    exact syncFold_rows_degraded log _ hok0

/-- C3 (witness for the amended claim): a one-line log whose line carries
the parseable timestamp 2023-10-27 10:30:00; the second run at a later
clock inserts nothing. -/
theorem claim_C3_amended_witness :
    (∀ line ∈ ["2023-10-27 10:30:00 [sshd] Ban 1.2.3.4"], lineKeyed line = true →
      (parse_log_timestamp line).isSome = true) ∧
    ((syncRun (syncRun ⟨true, []⟩ ["2023-10-27 10:30:00 [sshd] Ban 1.2.3.4"]
        ⟨2023, 10, 27, 10, 0, 0⟩ resU []).1
        ["2023-10-27 10:30:00 [sshd] Ban 1.2.3.4"] ⟨2023, 10, 27, 11, 0, 0⟩ resU
        (syncRun ⟨true, []⟩ ["2023-10-27 10:30:00 [sshd] Ban 1.2.3.4"]
          ⟨2023, 10, 27, 10, 0, 0⟩ resU []).2).1).rows =
      ((syncRun ⟨true, []⟩ ["2023-10-27 10:30:00 [sshd] Ban 1.2.3.4"]
        ⟨2023, 10, 27, 10, 0, 0⟩ resU []).1).rows :=
  ⟨by decide, claim_C3_amended ⟨true, []⟩ _ _ _ resU [] (by decide)⟩

/-- C4 (counterexample): the store-path extraction does not exclude Unban
events.  A store whose only row has action "Unban" still contributes its
address, because the filter is the case-insensitive substring test
`"ban" in action.lower()`, which "Unban" satisfies. -/
theorem claim_C4_counterexample :
    extract_banned_ips (some ⟨true, [⟨"2023-10-27 10:00:00", "9.9.9.9", "sshd", "Unban",
      none, "Unknown", "Unknown", "raw"⟩]⟩) [] ⟨2023, 10, 27, 12, 0, 0⟩ none =
      ["9.9.9.9"] ∧
    (⟨"2023-10-27 10:00:00", "9.9.9.9", "sshd", "Unban", none, "Unknown", "Unknown",
      "raw"⟩ : BanRow).action = "Unban" := by
  exact ⟨by decide, rfl⟩

/-- C4 (amended): in the store-preferred path, extractAddresses returns
the addresses of exactly the fetched events whose action is non-empty and
contains "ban" case-insensitively — which matches both Ban and Unban —
de-duplicated so each address appears once at the position of its first
occurrence in fetch order (proved as equality with the specification-side
first-seen de-duplication, plus no-duplicates and membership). -/
theorem claim_C4_amended : ∀ (db : DBState) (since : Option DT),
    storeExtract db since = specDedupFirstSeen
      (((fetch_bans db since).filter (fun r => actionHasBan r.action)).map
        (fun r => r.ip)) ∧
    (storeExtract db since).Nodup ∧
    (∀ ip, ip ∈ storeExtract db since ↔
      ∃ r ∈ fetch_bans db since, actionHasBan r.action = true ∧ r.ip = ip) ∧
    (∀ (log : List String) (now : DT),
      extract_banned_ips (some db) log now none = storeExtract db none) := by
  intro db since
  have h1 : storeExtract db since = specDedupFirstSeen
      (((fetch_bans db since).filter (fun r => actionHasBan r.action)).map
        (fun r => r.ip)) := by
    simp only [storeExtract]
    exact dedupKeys_eq_spec _
  refine ⟨h1, ?_, ?_, ?_⟩
  · rw [h1]
    exact nodup_specDedup _
  · intro ip
    rw [mem_storeExtract]
    simp only [List.mem_map, List.mem_filter]
    constructor
    · rintro ⟨r, ⟨hr, ha⟩, hip⟩
      exact ⟨r, hr, ha, hip⟩
    · rintro ⟨r, hr, ha, hip⟩
      exact ⟨r, ⟨hr, ha⟩, hip⟩
  · intro log now
    rfl

/-- C5 (confirmed): the Timestamp Parser tries the
"YYYY-MM-DD HH:MM:SS" shape first (sub-seconds discarded), then the
"YYYY-MM-DDTHH:MM:SS" shape (trailing "Z" discarded), returning none
when no pattern matches or its numbers fail range validation; it is a
total function (the Python never raises).  The given examples parse as
stated, and the try-in-order behaviour is the `Option.or` of the two
pattern attempts. -/
theorem claim_C5 :
    parse_log_timestamp "2023-10-27 10:30:00,123 Ban 10.0.0.1" =
      some ⟨2023, 10, 27, 10, 30, 0⟩ ∧
    parse_log_timestamp "2023-10-27T10:30:00Z" = some ⟨2023, 10, 27, 10, 30, 0⟩ ∧
    parse_log_timestamp "fail2ban restarted without timestamp" = none ∧
    (∀ line, parse_log_timestamp line = ((tryStamp ' ' line).or (tryStamp 'T' line))) := by
  refine ⟨by decide, by decide, by decide, ?_⟩
  intro line
  simp only [parse_log_timestamp, tryStamp]
  cases h : findStamp ' ' line.data with
  | none => simp
  | some tup =>
    obtain ⟨y, mo, d, hh, mi, ss⟩ := tup
    cases hs : strptimeOpt y mo d hh mi ss with
    | some t => simp [hs]
    | none => simp [hs]

/-- C6 (confirmed): query-window monotonicity.  The store and fallback
count branches of `count_bans_in_period` are exactly the factored
functions applied at the computed cutoff (first two conjuncts,
definitional); and for any fixed store or log state and cutoffs
T1 ≤ T2 (T1 earlier, both valid datetimes), the count for the window of T1 is
at least the count for the window of T2, and the address list for the wider
window contains every address of the narrower one, on both the
store-preferred and log-fallback paths. -/
theorem claim_C6 :
    (∀ (db : DBState) (log : List String) (now : DT) (h : Nat),
      count_bans_in_period (some db) log now h = storeBanCount db (subHours now h)) ∧
    (∀ (log : List String) (now : DT) (h : Nat),
      count_bans_in_period none log now h = fallbackCount log (subHours now h)) ∧
    (∀ (db : DBState) (log : List String) (s1 s2 : DT),
      validDT s1 = true → validDT s2 = true → dtLe s1 s2 = true →
      storeBanCount db s2 ≤ storeBanCount db s1 ∧
      fallbackCount log s2 ≤ fallbackCount log s1 ∧
      (∀ ip, ip ∈ storeExtract db (some s2) → ip ∈ storeExtract db (some s1)) ∧
      (∀ ip, ip ∈ fallbackExtract log (some s2) → ip ∈ fallbackExtract log (some s1))) := by
  refine ⟨fun db log now h => rfl, fun log now h => rfl, ?_⟩
  intro db log s1 s2 h1 h2 hle
  exact ⟨storeBanCount_mono h1 h2 hle, fallbackCount_mono hle,
    fun ip => storeExtract_mono h1 h2 hle, fun ip => fallbackExtract_mono hle⟩

/-- C6 (witness): a concrete store with rows at 10:00 and 11:30, the
log-fallback file with two classified lines, and the cutoffs 09:00 ≤ 11:00
of the same day; all hypotheses hold by computation and the monotonicity
conclusions follow from the theorem. -/
theorem claim_C6_witness :
    validDT ⟨2023, 10, 27, 9, 0, 0⟩ = true ∧ validDT ⟨2023, 10, 27, 11, 0, 0⟩ = true ∧
    dtLe ⟨2023, 10, 27, 9, 0, 0⟩ ⟨2023, 10, 27, 11, 0, 0⟩ = true ∧
    (storeBanCount ⟨true,
        [⟨"2023-10-27 10:00:00", "1.2.3.4", "sshd", "Ban", none, "U", "U", "r1"⟩,
         ⟨"2023-10-27 11:30:00", "5.6.7.8", "sshd", "Ban", none, "U", "U", "r2"⟩]⟩
        ⟨2023, 10, 27, 11, 0, 0⟩ ≤
      storeBanCount ⟨true,
        [⟨"2023-10-27 10:00:00", "1.2.3.4", "sshd", "Ban", none, "U", "U", "r1"⟩,
         ⟨"2023-10-27 11:30:00", "5.6.7.8", "sshd", "Ban", none, "U", "U", "r2"⟩]⟩
        ⟨2023, 10, 27, 9, 0, 0⟩ ∧
     fallbackCount ["2023-10-27 10:00:00 [sshd] Ban 1.2.3.4",
        "2023-10-27 11:30:00 [sshd] Ban 5.6.7.8"] ⟨2023, 10, 27, 11, 0, 0⟩ ≤
      fallbackCount ["2023-10-27 10:00:00 [sshd] Ban 1.2.3.4",
        "2023-10-27 11:30:00 [sshd] Ban 5.6.7.8"] ⟨2023, 10, 27, 9, 0, 0⟩ ∧
     (∀ ip, ip ∈ storeExtract ⟨true,
        [⟨"2023-10-27 10:00:00", "1.2.3.4", "sshd", "Ban", none, "U", "U", "r1"⟩,
         ⟨"2023-10-27 11:30:00", "5.6.7.8", "sshd", "Ban", none, "U", "U", "r2"⟩]⟩
          (some ⟨2023, 10, 27, 11, 0, 0⟩) →
        ip ∈ storeExtract ⟨true,
        [⟨"2023-10-27 10:00:00", "1.2.3.4", "sshd", "Ban", none, "U", "U", "r1"⟩,
         ⟨"2023-10-27 11:30:00", "5.6.7.8", "sshd", "Ban", none, "U", "U", "r2"⟩]⟩
          (some ⟨2023, 10, 27, 9, 0, 0⟩)) ∧
     (∀ ip, ip ∈ fallbackExtract ["2023-10-27 10:00:00 [sshd] Ban 1.2.3.4",
        "2023-10-27 11:30:00 [sshd] Ban 5.6.7.8"] (some ⟨2023, 10, 27, 11, 0, 0⟩) →
        ip ∈ fallbackExtract ["2023-10-27 10:00:00 [sshd] Ban 1.2.3.4",
        "2023-10-27 11:30:00 [sshd] Ban 5.6.7.8"] (some ⟨2023, 10, 27, 9, 0, 0⟩))) :=
  ⟨by decide, by decide, by decide,
    claim_C6.2.2 _ _ _ _ (by decide) (by decide) (by decide)⟩

/-- C7 (confirmed): the geolocation cache is a strict LRU of the fixed
capacity 1000.  Conjuncts: the repository constant is 1000 and
`get_geo_info` is the capacity-generalised step at that constant; a
resolve never grows the cache past the capacity (also along any fold from
the empty cache); a cache hit returns the cached value and moves the
entry to the most-recently-used end; inserting a fresh address into a
full cache evicts exactly the least-recently-used (head) entry; and an
entry read since then is protected from the next eviction. -/
theorem claim_C7 :
    MAX_CACHE_SIZE = 1000 ∧
    (∀ (resolver : String → String × String) (cache : GeoCache) (ip : String),
      get_geo_info resolver cache ip = getGeoInfoCap MAX_CACHE_SIZE resolver cache ip) ∧
    (∀ (cap : Nat) (resolver : String → String × String) (c : GeoCache) (ip : String),
      c.length ≤ cap → ((getGeoInfoCap cap resolver c ip).2).length ≤ cap) ∧
    (∀ (cap : Nat) (resolver : String → String × String) (ips : List String),
      (foldGeo cap resolver [] ips).length ≤ cap) ∧
    (∀ (cap : Nat) (resolver : String → String × String) (c : GeoCache) (ip : String),
      ip ∈ c.map Prod.fst → ∃ v, (ip, v) ∈ c ∧
        getGeoInfoCap cap resolver c ip =
          (v, (c.filter (fun x => x.1 ≠ ip)) ++ [(ip, v)])) ∧
    (∀ (cap : Nat) (resolver : String → String × String) (c : GeoCache) (ip : String),
      1 ≤ cap → c.length = cap → ip ∉ c.map Prod.fst →
      getGeoInfoCap cap resolver c ip =
        (lookupGeo resolver ip, c.tail ++ [(ip, lookupGeo resolver ip)])) ∧
    (∀ (cap : Nat) (resolver : String → String × String) (c : GeoCache) (ip k : String),
      2 ≤ cap → c.length = cap → (c.map Prod.fst).Nodup → k ∈ c.map Prod.fst →
      ip ∉ c.map Prod.fst → ip ≠ k →
      k ∈ ((getGeoInfoCap cap resolver
        (getGeoInfoCap cap resolver c k).2 ip).2).map Prod.fst) := by
  refine ⟨rfl, fun _ _ _ => rfl, ?_, ?_, ?_, ?_, ?_⟩
  · intro cap resolver c ip h
    exact getGeoInfoCap_len h
  · intro cap resolver ips
    exact foldGeo_len ips [] (Nat.zero_le _)
  · intro cap resolver c ip h
    exact getGeoInfoCap_hit h
  · intro cap resolver c ip h1 h2 h3
    exact getGeoInfoCap_evict h1 h2 h3
  · intro cap resolver c ip k h1 h2 h3 h4 h5 h6
    exact getGeoInfoCap_protect h1 h2 h3 h4 h5 h6

/-- C7 (witness): capacity 2 with the full cache [("a", ·), ("b", ·)];
inserting the fresh address "c" evicts exactly the head entry "a", and
reading "a" first protects it from that eviction. -/
theorem claim_C7_witness :
    (1 ≤ 2 ∧ ([("a", lookupGeo resU "a"), ("b", lookupGeo resU "b")] : GeoCache).length = 2 ∧
      "c" ∉ ([("a", lookupGeo resU "a"), ("b", lookupGeo resU "b")] : GeoCache).map Prod.fst ∧
      getGeoInfoCap 2 resU [("a", lookupGeo resU "a"), ("b", lookupGeo resU "b")] "c" =
        (lookupGeo resU "c", [("b", lookupGeo resU "b"), ("c", lookupGeo resU "c")])) ∧
    (2 ≤ 2 ∧ (([("a", lookupGeo resU "a"), ("b", lookupGeo resU "b")] : GeoCache).map
        Prod.fst).Nodup ∧ "a" ∈ ([("a", lookupGeo resU "a"), ("b", lookupGeo resU "b")] :
        GeoCache).map Prod.fst ∧ ("c" : String) ≠ "a" ∧
      "a" ∈ ((getGeoInfoCap 2 resU
        (getGeoInfoCap 2 resU [("a", lookupGeo resU "a"), ("b", lookupGeo resU "b")] "a").2
        "c").2).map Prod.fst) :=
  ⟨⟨by decide, by decide, by decide, by
      rw [claim_C7.2.2.2.2.2.1 2 resU _ "c" (by decide) (by decide) (by decide)]
      decide⟩,
   ⟨by decide, by decide, by decide, by decide,
      claim_C7.2.2.2.2.2.2 2 resU _ "c" "a" (by decide) (by decide) (by decide)
        (by decide) (by decide) (by decide)⟩⟩

/-- C8 (confirmed): the comparison handler computes
current = countSince(hours), previous = countSince(2*hours) - current,
and the percent change by the stated case split (the whole formula is the
first conjunct, definitional in the embedding); on the store with exactly
two Ban rows on the same address at T-30min and T-2h, countSince(1) = 1,
countSince(3) = 2, and compare(1) yields current = 1, previous = 1 and
percent change 0. -/
theorem claim_C8 :
    (∀ (dbm : Option DBState) (log : List String) (now : DT) (h : Nat),
      compareStats dbm log now h =
        (count_bans_in_period dbm log now h,
         (count_bans_in_period dbm log now (2 * h) : Int) -
           (count_bans_in_period dbm log now h : Int),
         if 0 < (count_bans_in_period dbm log now (2 * h) : Int) -
             (count_bans_in_period dbm log now h : Int) then
           ((|(count_bans_in_period dbm log now h : Int) -
              ((count_bans_in_period dbm log now (2 * h) : Int) -
               (count_bans_in_period dbm log now h : Int))| : Int) : ℚ) /
             (((count_bans_in_period dbm log now (2 * h) : Int) -
               (count_bans_in_period dbm log now h : Int) : Int) : ℚ) * 100
         else if 0 < count_bans_in_period dbm log now h then 100 else 0)) ∧
    count_bans_in_period (some ⟨true,
      [⟨"2023-10-27 11:30:00", "1.2.3.4", "sshd", "Ban", none, "U", "U", "r1"⟩,
       ⟨"2023-10-27 10:00:00", "1.2.3.4", "sshd", "Ban", none, "U", "U", "r2"⟩]⟩)
      [] ⟨2023, 10, 27, 12, 0, 0⟩ 1 = 1 ∧
    count_bans_in_period (some ⟨true,
      [⟨"2023-10-27 11:30:00", "1.2.3.4", "sshd", "Ban", none, "U", "U", "r1"⟩,
       ⟨"2023-10-27 10:00:00", "1.2.3.4", "sshd", "Ban", none, "U", "U", "r2"⟩]⟩)
      [] ⟨2023, 10, 27, 12, 0, 0⟩ 3 = 2 ∧
    compareStats (some ⟨true,
      [⟨"2023-10-27 11:30:00", "1.2.3.4", "sshd", "Ban", none, "U", "U", "r1"⟩,
       ⟨"2023-10-27 10:00:00", "1.2.3.4", "sshd", "Ban", none, "U", "U", "r2"⟩]⟩)
      [] ⟨2023, 10, 27, 12, 0, 0⟩ 1 = (1, 1, 0) := by
  refine ⟨fun dbm log now h => rfl, by decide, by decide, ?_⟩
  have h1 : count_bans_in_period (some ⟨true,
      [⟨"2023-10-27 11:30:00", "1.2.3.4", "sshd", "Ban", none, "U", "U", "r1"⟩,
       ⟨"2023-10-27 10:00:00", "1.2.3.4", "sshd", "Ban", none, "U", "U", "r2"⟩]⟩)
      [] ⟨2023, 10, 27, 12, 0, 0⟩ 1 = 1 := by decide
  have h2 : count_bans_in_period (some ⟨true,
      [⟨"2023-10-27 11:30:00", "1.2.3.4", "sshd", "Ban", none, "U", "U", "r1"⟩,
       ⟨"2023-10-27 10:00:00", "1.2.3.4", "sshd", "Ban", none, "U", "U", "r2"⟩]⟩)
      [] ⟨2023, 10, 27, 12, 0, 0⟩ (2 * 1) = 2 := by decide
  simp only [compareStats, h1, h2]
  norm_num

/-- C9 (confirmed): after any sequence of Log Scanner runs from an empty
healthy store, no two Ban Store rows share the same (timestamp, address)
pair; and two log lines carrying identical (timestamp, address) but
different jail names yield exactly one stored BanEvent (the jail of the first
line wins). -/
theorem claim_C9 :
    (∀ (resolver : String → String × String) (runs : List (List String × DT))
      (cache : GeoCache),
      (keysOf (multiSync resolver runs ⟨true, []⟩ cache).1).Nodup) ∧
    ((syncRun ⟨true, []⟩ ["2023-10-27 10:30:00,123 [sshd] Ban 7.7.7.7",
        "2023-10-27 10:30:00,123 [nginx] Ban 7.7.7.7"]
        ⟨2023, 10, 27, 12, 0, 0⟩ resU []).1).rows.length = 1 ∧
    ((syncRun ⟨true, []⟩ ["2023-10-27 10:30:00,123 [sshd] Ban 7.7.7.7",
        "2023-10-27 10:30:00,123 [nginx] Ban 7.7.7.7"]
        ⟨2023, 10, 27, 12, 0, 0⟩ resU []).1).rows.map (fun r => r.jail) = ["sshd"] := by
  refine ⟨?_, by decide, by decide⟩
  intro resolver runs cache
  simp only [multiSync]
  exact multiSync_keys_nodup resolver runs (⟨true, []⟩, cache) (by simp [keysOf])

/-- C10 (confirmed): in the log-fallback path of countSince every line
containing "Unban " passes the classification guard, because "ban "
occurs inside "Unban "; and for a log whose classified parseable
timestamps are chronologically non-decreasing (the ordering the fallback
relies on), the fallback count equals the number of classified lines —
ban and unban alike — with a parseable in-window timestamp. -/
theorem claim_C10 :
    (∀ line : String, containsStr line "Unban " = true → lineHasBanWord line = true) ∧
    (∀ (log : List String) (since : DT),
      List.Pairwise (fun a b => dtLe a b = true) (tsSeq log) →
      fallbackCount log since = log.countP (inWindowLine since)) := by
  constructor
  · intro line h
    simp only [containsStr, decide_eq_true_eq] at h
    simp only [lineHasBanWord, containsStr, Bool.or_eq_true, decide_eq_true_eq]
    right
    exact List.IsInfix.trans (by decide) h
  · intro log since h
    exact fallbackCount_eq_countP h

/-- C10 (witness): a chronologically ordered two-line log with one Ban
and one Unban line, both in the 24-hour window: the fallback count is 2,
counting the Unban line as well. -/
theorem claim_C10_witness :
    lineHasBanWord "2023-10-27 10:30:00 [sshd] Unban 1.2.3.4" = true ∧
    fallbackCount ["2023-10-27 10:00:00 [sshd] Ban 1.2.3.4",
      "2023-10-27 10:30:00 [sshd] Unban 1.2.3.4"]
      (subHours ⟨2023, 10, 27, 12, 0, 0⟩ 24) =
      (["2023-10-27 10:00:00 [sshd] Ban 1.2.3.4",
        "2023-10-27 10:30:00 [sshd] Unban 1.2.3.4"].countP
        (inWindowLine (subHours ⟨2023, 10, 27, 12, 0, 0⟩ 24))) ∧
    fallbackCount ["2023-10-27 10:00:00 [sshd] Ban 1.2.3.4",
      "2023-10-27 10:30:00 [sshd] Unban 1.2.3.4"]
      (subHours ⟨2023, 10, 27, 12, 0, 0⟩ 24) = 2 :=
  ⟨claim_C10.1 _ (by decide), claim_C10.2 _ _ (by decide), by decide⟩
